import Mathlib

/-!
Verification development for the CafeDS distributed ordered-broadcast service
(`src/cafeds/`). The Python modules are shallowly embedded: each node's mutable
fields become a `NodeState` record, each handler becomes a pure function from
state (plus the decoded message fields it reads) to state, and the side effects
we reason about — local delivery (`_deliver`) and WAL appends — are made
explicit as a list of delivered records and a `wal` list inside the state.
Python dictionaries become association lists, Python sets become `Finset`s,
Python ints become `Int`. Wall-clock reads (`time.time()`), sockets, threads
and logging are not represented: they never influence the sequencing, delivery
or epoch state that the claims are about (the `last_resend_ts` rate limiter
only gates an outgoing RESEND_REQUEST datagram, not any state transition
modelled here).
-/

namespace CafeDS

/-- An ORDER record (`proto.order_msg` plus the `sender_id` field that
`node.py` adds): `{type:"ORDER", leader_id, epoch, seq, order_uuid, payload,
sender_id}`.  The payload is opaque to the core, so it is modelled as a
`String`.  The constant `"type"` tag is implicit: every value of this type is
an ORDER-typed record. -/
structure OrderRec where
  leader_id : Int
  epoch : Int
  seq : Int
  order_uuid : String
  payload : String
  sender_id : Option Int
deriving DecidableEq, Repr

/-- Node role (`self.role`, the strings `"leader"` / `"follower"`). -/
inductive Role where
  | leader : Role
  | follower : Role
deriving DecidableEq, Repr

/-- `LeaderInfo` dataclass of `node.py` (the wall-clock `last_seen_ts` field is
not modelled; no claim depends on it). -/
structure LeaderInfo where
  leader_id : Int
  leader_ip : String
  leader_tcp_port : Int
  epoch : Int
  last_seq : Int
deriving DecidableEq, Repr

/-- The mutable per-node fields of `Node` that the claims are about.
`wal` models the contents of the node's WAL file (`cafeds_wal_node_<id>.jsonl`)
as the list of appended records, in append order; `WAL_ENABLED` is taken as
true (a node with `wal_file = None` appends nothing and recovers nothing). -/
structure NodeState where
  node_id : Int
  role : Role
  epoch : Int
  last_seq : Int
  history : List (Int × OrderRec)
  leader : Option LeaderInfo
  expected_seq : Int
  buffer : List (Int × OrderRec)
  delivered_seqs : Finset Int
  seen_order_uuids : Finset String
  wal : List OrderRec
deriving DecidableEq

/-- Python dict assignment `d[k] = v`: any previous binding of `k` is
replaced.  (The association list is used as a finite map; ordering of entries
is irrelevant to lookup.) -/
def assocInsert (k : Int) (v : OrderRec) (m : List (Int × OrderRec)) :
    List (Int × OrderRec) :=
  (k, v) :: m.filter (fun p => p.1 ≠ k)

/-- Python dict lookup `d.get(k)` / `k in d`. -/
def assocLookup (k : Int) (m : List (Int × OrderRec)) : Option OrderRec :=
  (m.find? (fun p => p.1 == k)).map Prod.snd

/-- Python `d.pop(k)`'s removal effect. -/
def assocErase (k : Int) (m : List (Int × OrderRec)) : List (Int × OrderRec) :=
  m.filter (fun p => p.1 ≠ k)

/-- Python `max(d.keys(), default=0)`. -/
def maxKeysDefault0 (m : List (Int × OrderRec)) : Int :=
  match m.map Prod.fst with
  | [] => 0
  | k :: ks => ks.foldl max k

/-- The `while self.expected_seq in self.buffer` drain loop at the end of
`Node._process_order` (node.py lines 536-545).  Each iteration pops the buffer
entry at `expected_seq`; if that seq is already delivered it only advances
`expected_seq`, otherwise it delivers the record (returned in the output
list), appends it to the WAL, marks it delivered and advances.  The loop
terminates because each iteration removes a buffer entry; `fuel` is
instantiated with the buffer length, which suffices. -/
def drainBuffer : Nat → NodeState → NodeState × List OrderRec
  | 0, s => (s, [])
  | Nat.succ fuel, s =>
    match assocLookup s.expected_seq s.buffer with
    | none => (s, [])
    | some m2 =>
      -- the pop happens before the dedup check
      if s.expected_seq ∈ s.delivered_seqs then
        drainBuffer fuel { s with
          buffer := assocErase s.expected_seq s.buffer,
          expected_seq := s.expected_seq + 1 }
      else
        let r := drainBuffer fuel { s with
          buffer := assocErase s.expected_seq s.buffer,
          wal := s.wal ++ [m2],
          delivered_seqs := insert s.expected_seq s.delivered_seqs,
          expected_seq := s.expected_seq + 1 }
        (r.1, m2 :: r.2)

/-- The unconditional bookkeeping of `_process_order` once the seq parsed
positive: `history[seq] = msg; last_seq = max(last_seq, seq)` ("keep history
for leader handover"). -/
def orderRecord (s : NodeState) (m : OrderRec) : NodeState :=
  { s with
    history := assocInsert m.seq m s.history,
    last_seq := max s.last_seq m.seq }

/-- The `seq == expected` delivery step of `_process_order`: deliver, append
to WAL, mark delivered, advance `expected_seq`. -/
def deliverFirst (s0 : NodeState) (m : OrderRec) : NodeState :=
  { s0 with
    wal := s0.wal ++ [m],
    delivered_seqs := insert m.seq s0.delivered_seqs,
    expected_seq := s0.expected_seq + 1 }

/-- The dedup branch of `_process_order` (`seq` already delivered or below
`expected_seq`): just `delivered_seqs.add(seq)`. -/
def dedupMark (s0 : NodeState) (m : OrderRec) : NodeState :=
  { s0 with delivered_seqs := insert m.seq s0.delivered_seqs }

/-- The gap branch of `_process_order`: `buffer[seq] = msg`. -/
def bufferGap (s0 : NodeState) (m : OrderRec) : NodeState :=
  { s0 with buffer := assocInsert m.seq m s0.buffer }

/-- `Node._process_order` (node.py lines 484-545).  The argument is `none`
when `int(msg.get("seq", -1))` raises (unparsable seq field) or the message
is falsy — those paths return without touching state.  The returned list
holds the records passed to `self._deliver`, in delivery order.  The
RESEND_REQUEST datagram optionally sent in the gap branch is outbound I/O and
is not modelled (it changes no sequencing state). -/
def process_order (s : NodeState) (msg : Option OrderRec) :
    NodeState × List OrderRec :=
  match msg with
  | none => (s, [])
  | some m =>
    if m.seq ≤ 0 then (s, [])
    else
      let s0 := orderRecord s m
      -- dedup
      if m.seq ∈ s0.delivered_seqs ∨ m.seq < s0.expected_seq then
        (dedupMark s0 m, [])
      -- gap => buffer (+ resend request, not modelled)
      else if s0.expected_seq < m.seq then
        (bufferGap s0 m, [])
      -- seq == expected => deliver and flush
      else
        let s1 := deliverFirst s0 m
        let r := drainBuffer s1.buffer.length s1
        (r.1, m :: r.2)

/-- One line of the WAL file as seen by `Node._recover_from_wal`: `none` for a
blank line, a line `json.loads` rejects, or one whose `seq` field
`int(...)` cannot parse; otherwise the parsed record (a missing `seq`
defaults to 0, a missing `order_uuid` to `""`, matching the `.get` defaults). -/
def recoverLine (s : NodeState) (line : Option OrderRec) : NodeState :=
  match line with
  | none => s
  | some r =>
    if 0 < r.seq then
      { s with
        history := assocInsert r.seq r s.history,
        last_seq := max s.last_seq r.seq,
        seen_order_uuids :=
          if r.order_uuid ≠ "" then insert r.order_uuid s.seen_order_uuids
          else s.seen_order_uuids }
    else s

/-- `Node._recover_from_wal` (node.py lines 211-240): fold the per-line step
over the file, then set `expected_seq = last_seq + 1` and add
`range(1, expected_seq)` to `delivered_seqs`. -/
def recover_from_wal (s : NodeState) (lines : List (Option OrderRec)) :
    NodeState :=
  let s' := lines.foldl recoverLine s
  { s' with
    expected_seq := s'.last_seq + 1,
    delivered_seqs := s'.delivered_seqs ∪ Finset.Ico 1 (s'.last_seq + 1) }

/-- `Node._promote_to_leader` (node.py lines 1027-1062).  Socket/thread starts
and the outgoing COORDINATOR broadcast are I/O; the state changes are: role,
leader, epoch, and the `last_seq` / `expected_seq` / `delivered_seqs` update
under the two locks. -/
def promote_to_leader (s : NodeState) (new_epoch : Int) : NodeState :=
  let ls := max s.last_seq (maxKeysDefault0 s.history)
  let exp := max s.expected_seq (ls + 1)
  { s with
    role := Role.leader,
    leader := none,
    epoch := max (s.epoch + 1) new_epoch,
    last_seq := ls,
    expected_seq := exp,
    delivered_seqs := s.delivered_seqs ∪ Finset.Ico 1 exp }

/-- Fresh `Node.__init__` state (before `_recover_from_wal` runs; recovery is
a separate step). -/
def initState (node_id : Int) (role : Role) : NodeState :=
  { node_id := node_id
    role := role
    epoch := 1
    last_seq := 0
    history := []
    leader := none
    expected_seq := 1
    buffer := []
    delivered_seqs := ∅
    seen_order_uuids := ∅
    wal := [] }

/-- Recording of a non-empty uuid in `seen_order_uuids` on acceptance
(the `if order_uuid:` inserts of the NEW_ORDER handler). -/
def acceptState (s : NodeState) (u : String) : NodeState :=
  if u ≠ "" then { s with seen_order_uuids := insert u s.seen_order_uuids }
  else s

/-- The sequencer's allocation
`max(self.last_seq, max(self.history.keys(), default=0)) + 1`. -/
def allocSeq (s0 : NodeState) : Int :=
  max s0.last_seq (maxKeysDefault0 s0.history) + 1

/-- The ORDER record the leader constructs for an accepted NEW_ORDER
(`proto.order_msg` with the current epoch, plus `om["sender_id"] = ...`). -/
def newOrderMsg (s0 : NodeState) (sender_id : Option Int) (u p : String) :
    OrderRec :=
  { leader_id := s0.node_id
    epoch := s0.epoch
    seq := allocSeq s0
    order_uuid := u
    payload := p
    sender_id := sender_id }

/-- State after allocation and before local processing: `last_seq` advanced
to the allocated seq, record appended to history, and — the append at
node.py line 817 — the record written to the WAL before broadcasting. -/
def preBroadcastState (s0 : NodeState) (om : OrderRec) : NodeState :=
  { s0 with
    last_seq := om.seq,
    history := assocInsert om.seq om s0.history,
    wal := s0.wal ++ [om] }

/-- The NEW_ORDER branch of the leader's TCP `on_msg` handler
(`_start_tcp_leader.on_msg`, node.py lines 790-821).  Arguments are the
message fields the handler reads: `order_uuid_field = none` models a missing
`order_uuid` key (the `.get` default `""` then applies).  Returns the new
state, the locally delivered records, and the allocated sequence number
(`none` when the order was dropped as a duplicate).  The TCP broadcast of the
constructed record is outbound I/O; the WAL append before broadcasting is in
the state's `wal`. -/
def handle_new_order (s : NodeState) (sender_id : Option Int)
    (order_uuid_field : Option String) (payload : String) :
    NodeState × List OrderRec × Option Int :=
  let order_uuid := order_uuid_field.getD ("")
  -- UUID Deduplication: prevent duplicate order processing
  if order_uuid ≠ "" ∧ order_uuid ∈ s.seen_order_uuids then (s, [], none)
  else
    let s0 := acceptState s order_uuid
    let om := newOrderMsg s0 sender_id order_uuid payload
    -- WAL: persist to disk BEFORE broadcasting (crash durability)
    let s2 := preBroadcastState s0 om
    let r := process_order s2 (some om)
    (r.1, r.2, some om.seq)

/-- `Node._is_better_leader` (node.py lines 455-480). -/
def is_better_leader (cur : Option LeaderInfo) (nw : LeaderInfo) : Bool :=
  match cur with
  | none => true
  | some c =>
    if nw.epoch ≠ c.epoch then decide (c.epoch < nw.epoch)
    else if nw.leader_id ≠ c.leader_id then decide (c.leader_id < nw.leader_id)
    else
      let curLoop := c.leader_ip.startsWith ("127.")
      let newLoop := nw.leader_ip.startsWith ("127.")
      if curLoop ∧ ¬ newLoop then true
      else if ¬ curLoop ∧ newLoop then false
      else if nw.last_seq ≠ c.last_seq then decide (c.last_seq < nw.last_seq)
      else false

/-- The I_AM_LEADER branch of `_udp_node_listener` (node.py lines 566-584):
only acts in follower role; adopts the claim if `_is_better_leader`, taking
the leader IP from the datagram source address, and raises the local epoch to
the max.  (TCP client reconnection is I/O.) -/
def handle_i_am_leader (s : NodeState) (src_ip : String)
    (leader_id leader_tcp_port epoch last_seq : Int) : NodeState :=
  if s.role = Role.follower then
    let nw : LeaderInfo :=
      { leader_id := leader_id
        leader_ip := src_ip
        leader_tcp_port := leader_tcp_port
        epoch := epoch
        last_seq := last_seq }
    if is_better_leader s.leader nw then
      { s with leader := some nw, epoch := max s.epoch nw.epoch }
    else s
  else s

/-- The LEADER_ALIVE branch of `_udp_node_listener` (node.py lines 586-613):
in follower role, accept an unknown leader, or refresh a known one when the
ids match or the epoch is strictly higher; always raise the local epoch to
the max.  (The cluster-list peer registration feeds the peer registry, which
no claim quantifies over and which is not modelled.) -/
def handle_leader_alive (s : NodeState) (src_ip : String)
    (leader_id epoch last_seq leader_tcp_port : Int) : NodeState :=
  if s.role = Role.follower then
    let s' : NodeState :=
      match s.leader with
      | none =>
        let nw : LeaderInfo :=
          { leader_id := leader_id
            leader_ip := src_ip
            leader_tcp_port := leader_tcp_port
            epoch := epoch
            last_seq := last_seq }
        { s with leader := some nw }
      | some cur =>
        if leader_id = cur.leader_id ∨ cur.epoch < epoch then
          let upd : LeaderInfo :=
            { leader_id := cur.leader_id
              leader_ip := src_ip
              leader_tcp_port :=
                if leader_tcp_port ≠ 0 then leader_tcp_port
                else cur.leader_tcp_port
              epoch := max cur.epoch epoch
              last_seq := max cur.last_seq last_seq }
          { s with leader := some upd }
        else s
    { s' with epoch := max s'.epoch epoch }
  else s

/-- The COORDINATOR branch of `_udp_node_listener` (node.py lines 662-706):
a leader steps down to a legitimately superior coordinator
(`_demote_to_follower`), and a follower (including one just demoted) adopts
the announced leader and raises its epoch to the max. -/
def handle_coordinator (s : NodeState) (src_ip : String)
    (leader_id epoch leader_tcp_port last_seq : Int) : NodeState :=
  let should_step_down :=
    s.role = Role.leader ∧ leader_id ≠ s.node_id ∧
      (s.epoch < epoch ∨ (epoch = s.epoch ∧ s.node_id < leader_id))
  let nw : LeaderInfo :=
    { leader_id := leader_id
      leader_ip := src_ip
      leader_tcp_port := leader_tcp_port
      epoch := epoch
      last_seq := last_seq }
  let s0 : NodeState :=
    if should_step_down then { s with role := Role.follower, leader := some nw }
    else s
  if s0.role = Role.follower then
    { s0 with leader := some nw, epoch := max s0.epoch epoch }
  else s0

/-- Election completion on reception of a COORDINATOR message inside
`_bully_election` (node.py lines 1006-1016): adopt the announced leader and
raise the epoch to the max.  (`leader_ip` here is the message's self-reported
field, defaulted to loopback when empty.) -/
def election_adopt_coordinator (s : NodeState)
    (leader_id : Int) (leader_ip : String)
    (leader_tcp_port epoch last_seq : Int) : NodeState :=
  let lead : LeaderInfo :=
    { leader_id := leader_id
      leader_ip := if leader_ip = "" then ("127.0.0.1") else leader_ip
      leader_tcp_port := leader_tcp_port
      epoch := epoch
      last_seq := last_seq }
  { s with epoch := max s.epoch lead.epoch, leader := some lead }

/-- `Node._demote_to_follower` (node.py lines 1064-1084): socket teardown is
I/O; the state change sets role and leader.  `epoch` is untouched. -/
def demote_to_follower (s : NodeState) (new_leader : LeaderInfo) : NodeState :=
  if s.role ≠ Role.leader then { s with leader := some new_leader }
  else { s with role := Role.follower, leader := some new_leader }

/-- An event a node handles.  This covers every operation the claims quantify
over: inbound ORDER processing, leader NEW_ORDER handling, WAL recovery,
promotion, demotion, the three leader-claim UDP receipts, and election
completion. -/
inductive Event where
  | order (msg : Option OrderRec) : Event
  | newOrder (sender_id : Option Int) (order_uuid_field : Option String)
      (payload : String) : Event
  | recover (lines : List (Option OrderRec)) : Event
  | promote (new_epoch : Int) : Event
  | demote (new_leader : LeaderInfo) : Event
  | iAmLeader (src_ip : String)
      (leader_id leader_tcp_port epoch last_seq : Int) : Event
  | leaderAlive (src_ip : String)
      (leader_id epoch last_seq leader_tcp_port : Int) : Event
  | coordinator (src_ip : String)
      (leader_id epoch leader_tcp_port last_seq : Int) : Event
  | electionAdopt (leader_id : Int) (leader_ip : String)
      (leader_tcp_port epoch last_seq : Int) : Event

/-- Apply one event; the second component is the list of records delivered
(passed to `_deliver`) while handling it. -/
def step (s : NodeState) : Event → NodeState × List OrderRec
  | Event.order msg => process_order s msg
  | Event.newOrder sid uf p =>
    let r := handle_new_order s sid uf p
    (r.1, r.2.1)
  | Event.recover lines => (recover_from_wal s lines, [])
  | Event.promote e => (promote_to_leader s e, [])
  | Event.demote nl => (demote_to_follower s nl, [])
  | Event.iAmLeader ip lid ltcp e ls => (handle_i_am_leader s ip lid ltcp e ls, [])
  | Event.leaderAlive ip lid e ls ltcp => (handle_leader_alive s ip lid e ls ltcp, [])
  | Event.coordinator ip lid e ltcp ls => (handle_coordinator s ip lid e ltcp ls, [])
  | Event.electionAdopt lid lip ltcp e ls =>
    (election_adopt_coordinator s lid lip ltcp e ls, [])

/-- Run a list of events from a state, concatenating all deliveries. -/
def runFrom (p : NodeState × List OrderRec) :
    List Event → NodeState × List OrderRec
  | [] => p
  | ev :: evs =>
    let r := step p.1 ev
    runFrom (r.1, p.2 ++ r.2) evs

/-- A node's whole lifetime: the fresh `__init__` state followed by any
sequence of handled events.  The second component is the full delivery log of
the process, in order. -/
def runTrace (node_id : Int) (role : Role) (evs : List Event) :
    NodeState × List OrderRec :=
  runFrom (initState node_id role, []) evs

/-! ### Delivery-state invariant (claim C1 machinery) -/

/-- The delivery-state invariant maintained by every node: `delivered_seqs` is
exactly the interval `[1, expected_seq)`, `expected_seq` stays at least 1 and
at most `last_seq + 1`, and every buffered entry is keyed by its record's own
positive-checked seq, bounded by `last_seq`. -/
def Inv (s : NodeState) : Prop :=
  s.delivered_seqs = Finset.Ico 1 s.expected_seq ∧
  1 ≤ s.expected_seq ∧
  s.expected_seq ≤ s.last_seq + 1 ∧
  ∀ p ∈ s.buffer, p.2.seq = p.1 ∧ p.1 ≤ s.last_seq

theorem initState_Inv (node_id : Int) (role : Role) : Inv (initState node_id role) := by
  refine ⟨?_, le_refl 1, by norm_num [initState], ?_⟩
  · simp [initState]
  · intro p hp
    simp [initState] at hp

theorem assocLookup_mem {k : Int} {b : List (Int × OrderRec)} {v : OrderRec}
    (h : assocLookup k b = some v) : (k, v) ∈ b := by
  unfold assocLookup at h
  cases hf : b.find? (fun p => p.1 == k) with
  | none => rw [hf] at h; simp at h
  | some p =>
    rw [hf] at h
    simp only [Option.map_some', Option.some.injEq] at h
    have hmem := List.mem_of_find?_eq_some hf
    have hpred := List.find?_some hf
    have hk : p.1 = k := by simpa using hpred
    cases p with
    | mk a b' =>
      simp only at hk h
      rw [← hk, ← h]
      exact hmem

theorem assocErase_subset {k : Int} {b : List (Int × OrderRec)} :
    ∀ p ∈ assocErase k b, p ∈ b :=
  fun _ hp => (List.mem_filter.mp hp).1

theorem insert_Ico_one {e : Int} (h : 1 ≤ e) :
    insert e (Finset.Ico 1 e) = Finset.Ico 1 (e + 1) := by
  ext x
  simp only [Finset.mem_insert, Finset.mem_Ico]
  omega

/-- The state the drain loop recurses on after delivering a buffered record. -/
def drainNext (s : NodeState) (m2 : OrderRec) : NodeState :=
  { s with
    buffer := assocErase s.expected_seq s.buffer,
    wal := s.wal ++ [m2],
    delivered_seqs := insert s.expected_seq s.delivered_seqs,
    expected_seq := s.expected_seq + 1 }

theorem drainBuffer_succ_some {fuel : Nat} {s : NodeState} {m2 : OrderRec}
    (hf : assocLookup s.expected_seq s.buffer = some m2)
    (hnd : s.expected_seq ∉ s.delivered_seqs) :
    drainBuffer (Nat.succ fuel) s =
      ((drainBuffer fuel (drainNext s m2)).1,
        m2 :: (drainBuffer fuel (drainNext s m2)).2) := by
  simp [drainBuffer, hf, hnd, drainNext]

/-- Behaviour of the drain loop: it preserves the invariant, only advances
`expected_seq`, leaves `last_seq` alone, appends to the WAL exactly the
delivered records in order, and the delivered records have strictly ascending
seqs inside `[old expected_seq, new expected_seq)`. -/
theorem drainBuffer_spec (fuel : Nat) :
    ∀ s : NodeState, Inv s →
    Inv (drainBuffer fuel s).1 ∧
    s.expected_seq ≤ (drainBuffer fuel s).1.expected_seq ∧
    (drainBuffer fuel s).1.last_seq = s.last_seq ∧
    (drainBuffer fuel s).1.wal = s.wal ++ (drainBuffer fuel s).2 ∧
    (∀ m ∈ (drainBuffer fuel s).2,
      s.expected_seq ≤ m.seq ∧ m.seq < (drainBuffer fuel s).1.expected_seq) ∧
    (drainBuffer fuel s).2.Pairwise (fun a b => a.seq < b.seq) := by
  induction fuel with
  | zero =>
    intro s hs
    refine ⟨hs, le_refl _, rfl, by simp [drainBuffer], ?_, by simp [drainBuffer]⟩
    intro m hm
    simp [drainBuffer] at hm
  | succ fuel ih =>
    intro s hs
    obtain ⟨hdel, hone, hle, hbuf⟩ := hs
    cases hf : assocLookup s.expected_seq s.buffer with
    | none =>
      have heq : drainBuffer (Nat.succ fuel) s = (s, []) := by
        simp [drainBuffer, hf]
      rw [heq]
      refine ⟨⟨hdel, hone, hle, hbuf⟩, le_refl _, rfl, by simp, ?_, by simp⟩
      intro m hm
      simp at hm
    | some m2 =>
      have hmem : (s.expected_seq, m2) ∈ s.buffer := assocLookup_mem hf
      have hm2seq : m2.seq = s.expected_seq := (hbuf _ hmem).1
      have hm2le : s.expected_seq ≤ s.last_seq := (hbuf _ hmem).2
      have hnotdel : s.expected_seq ∉ s.delivered_seqs := by
        rw [hdel]
        simp
      rw [drainBuffer_succ_some hf hnotdel]
      have hnext_exp : (drainNext s m2).expected_seq = s.expected_seq + 1 := rfl
      have hnext_last : (drainNext s m2).last_seq = s.last_seq := rfl
      have hnext_wal : (drainNext s m2).wal = s.wal ++ [m2] := rfl
      have hs2inv : Inv (drainNext s m2) := by
        refine ⟨?_, by rw [hnext_exp]; omega, by rw [hnext_exp, hnext_last]; omega, ?_⟩
        · show insert s.expected_seq s.delivered_seqs = Finset.Ico 1 (s.expected_seq + 1)
          rw [hdel]
          exact insert_Ico_one hone
        · intro p hp
          exact hbuf p (assocErase_subset p hp)
      obtain ⟨ih1, ih2, ih3, ih4, ih5, ih6⟩ := ih (drainNext s m2) hs2inv
      rw [hnext_exp] at ih2
      rw [hnext_last] at ih3
      rw [hnext_wal] at ih4
      refine ⟨ih1, ?_, ?_, ?_, ?_, ?_⟩
      · show s.expected_seq ≤ (drainBuffer fuel (drainNext s m2)).1.expected_seq
        omega
      · show (drainBuffer fuel (drainNext s m2)).1.last_seq = s.last_seq
        exact ih3
      · show (drainBuffer fuel (drainNext s m2)).1.wal
            = s.wal ++ (m2 :: (drainBuffer fuel (drainNext s m2)).2)
        rw [ih4]
        simp
      · intro m hm
        rcases List.mem_cons.mp hm with h | h
        · rw [h]
          refine ⟨le_of_eq hm2seq.symm, ?_⟩
          show m2.seq < (drainBuffer fuel (drainNext s m2)).1.expected_seq
          rw [hm2seq]
          omega
        · obtain ⟨hlo, hhi⟩ := ih5 m h
          rw [hnext_exp] at hlo
          exact ⟨by omega, hhi⟩
      · refine List.pairwise_cons.mpr ⟨?_, ih6⟩
        intro m hm
        obtain ⟨hlo, _⟩ := ih5 m hm
        rw [hnext_exp] at hlo
        rw [hm2seq]
        omega

/-- `_process_order` preserves the invariant, never moves `expected_seq` or
`last_seq` backwards, appends to the WAL exactly the records it delivers, in
order, and delivers records with strictly ascending seqs inside
`[old expected_seq, new expected_seq)`. -/
theorem process_order_spec (s : NodeState) (msg : Option OrderRec) (h : Inv s) :
    Inv (process_order s msg).1 ∧
    s.expected_seq ≤ (process_order s msg).1.expected_seq ∧
    s.last_seq ≤ (process_order s msg).1.last_seq ∧
    (process_order s msg).1.wal = s.wal ++ (process_order s msg).2 ∧
    (∀ m ∈ (process_order s msg).2,
      s.expected_seq ≤ m.seq ∧ m.seq < (process_order s msg).1.expected_seq) ∧
    (process_order s msg).2.Pairwise (fun a b => a.seq < b.seq) := by
  obtain ⟨hdel, hone, hle, hbuf⟩ := h
  cases msg with
  | none =>
    have heq : process_order s none = (s, []) := rfl
    rw [heq]
    exact ⟨⟨hdel, hone, hle, hbuf⟩, le_refl _, le_refl _, by simp,
      by intro m hm; simp at hm, by simp⟩
  | some m =>
    by_cases h0 : m.seq ≤ 0
    · have heq : process_order s (some m) = (s, []) := by
        simp [process_order, h0]
      rw [heq]
      exact ⟨⟨hdel, hone, hle, hbuf⟩, le_refl _, le_refl _, by simp,
        by intro m' hm'; simp at hm', by simp⟩
    · have h0' : 0 < m.seq := by omega
      have hs0del : (orderRecord s m).delivered_seqs = s.delivered_seqs := rfl
      have hs0exp : (orderRecord s m).expected_seq = s.expected_seq := rfl
      have hs0last : (orderRecord s m).last_seq = max s.last_seq m.seq := rfl
      have hs0wal : (orderRecord s m).wal = s.wal := rfl
      have hs0buf : (orderRecord s m).buffer = s.buffer := rfl
      by_cases hdup : m.seq ∈ (orderRecord s m).delivered_seqs ∨
          m.seq < (orderRecord s m).expected_seq
      · have heq : process_order s (some m) = (dedupMark (orderRecord s m) m, []) := by
          simp [process_order, h0, hdup]
        rw [heq]
        have hd_del : (dedupMark (orderRecord s m) m).delivered_seqs =
            insert m.seq s.delivered_seqs := rfl
        have hd_exp : (dedupMark (orderRecord s m) m).expected_seq = s.expected_seq := rfl
        have hd_last : (dedupMark (orderRecord s m) m).last_seq = max s.last_seq m.seq := rfl
        have hd_wal : (dedupMark (orderRecord s m) m).wal = s.wal := rfl
        have hd_buf : (dedupMark (orderRecord s m) m).buffer = s.buffer := rfl
        have hmemdel : m.seq ∈ s.delivered_seqs := by
          rcases hdup with hd | hd
          · exact hd
          · rw [hdel]
            rw [hs0exp] at hd
            simp only [Finset.mem_Ico]
            omega
        have hins : insert m.seq s.delivered_seqs = s.delivered_seqs :=
          Finset.insert_eq_self.mpr hmemdel
        refine ⟨⟨?_, ?_, ?_, ?_⟩, ?_, ?_, ?_, by intro m' hm'; simp at hm', by simp⟩
        · rw [hd_del, hd_exp, hins, hdel]
        · rw [hd_exp]
          exact hone
        · rw [hd_exp, hd_last]
          omega
        · intro p hp
          rw [hd_buf] at hp
          have := hbuf p hp
          rw [hd_last]
          omega
        · rw [hd_exp]
        · rw [hd_last]
          exact le_max_left _ _
        · rw [hd_wal]
          simp
      · by_cases hgap : (orderRecord s m).expected_seq < m.seq
        · have heq : process_order s (some m) = (bufferGap (orderRecord s m) m, []) := by
            simp [process_order, h0, hdup, hgap]
          rw [heq]
          have hg_del : (bufferGap (orderRecord s m) m).delivered_seqs =
              s.delivered_seqs := rfl
          have hg_exp : (bufferGap (orderRecord s m) m).expected_seq = s.expected_seq := rfl
          have hg_last : (bufferGap (orderRecord s m) m).last_seq = max s.last_seq m.seq := rfl
          have hg_wal : (bufferGap (orderRecord s m) m).wal = s.wal := rfl
          have hg_buf : (bufferGap (orderRecord s m) m).buffer =
              assocInsert m.seq m s.buffer := rfl
          refine ⟨⟨?_, ?_, ?_, ?_⟩, ?_, ?_, ?_, by intro m' hm'; simp at hm', by simp⟩
          · rw [hg_del, hg_exp, hdel]
          · rw [hg_exp]
            exact hone
          · rw [hg_exp, hg_last]
            omega
          · intro p hp
            rw [hg_buf] at hp
            rw [hg_last]
            rcases List.mem_cons.mp hp with hp1 | hp2
            · rw [hp1]
              exact ⟨rfl, le_max_right _ _⟩
            · have := hbuf p (List.mem_filter.mp hp2).1
              omega
          · rw [hg_exp]
          · rw [hg_last]
            exact le_max_left _ _
          · rw [hg_wal]
            simp
        · -- seq == expected_seq: deliver and drain
          have hseq : m.seq = s.expected_seq := by
            rw [hs0exp] at hgap
            push_neg at hdup hgap
            rw [hs0exp] at hdup
            omega
          have heq : process_order s (some m) =
              ((drainBuffer (deliverFirst (orderRecord s m) m).buffer.length
                  (deliverFirst (orderRecord s m) m)).1,
                m :: (drainBuffer (deliverFirst (orderRecord s m) m).buffer.length
                  (deliverFirst (orderRecord s m) m)).2) := by
            simp [process_order, h0, hdup, hgap]
          have hs1del : (deliverFirst (orderRecord s m) m).delivered_seqs =
              insert m.seq s.delivered_seqs := rfl
          have hs1exp : (deliverFirst (orderRecord s m) m).expected_seq =
              s.expected_seq + 1 := rfl
          have hs1last : (deliverFirst (orderRecord s m) m).last_seq =
              max s.last_seq m.seq := rfl
          have hs1wal : (deliverFirst (orderRecord s m) m).wal = s.wal ++ [m] := rfl
          have hs1buf : (deliverFirst (orderRecord s m) m).buffer = s.buffer := rfl
          have hs1inv : Inv (deliverFirst (orderRecord s m) m) := by
            refine ⟨?_, ?_, ?_, ?_⟩
            · rw [hs1del, hs1exp, hdel, hseq]
              exact insert_Ico_one hone
            · rw [hs1exp]
              omega
            · rw [hs1exp, hs1last]
              omega
            · intro p hp
              rw [hs1buf] at hp
              have := hbuf p hp
              rw [hs1last]
              omega
          obtain ⟨d1, d2, d3, d4, d5, d6⟩ :=
            drainBuffer_spec (deliverFirst (orderRecord s m) m).buffer.length
              (deliverFirst (orderRecord s m) m) hs1inv
          rw [hs1exp] at d2
          rw [hs1last] at d3
          rw [hs1wal] at d4
          rw [heq]
          refine ⟨d1, ?_, ?_, ?_, ?_, ?_⟩
          · show s.expected_seq ≤
              (drainBuffer (deliverFirst (orderRecord s m) m).buffer.length
                (deliverFirst (orderRecord s m) m)).1.expected_seq
            omega
          · show s.last_seq ≤
              (drainBuffer (deliverFirst (orderRecord s m) m).buffer.length
                (deliverFirst (orderRecord s m) m)).1.last_seq
            omega
          · show (drainBuffer (deliverFirst (orderRecord s m) m).buffer.length
                (deliverFirst (orderRecord s m) m)).1.wal = s.wal ++ (m :: _)
            rw [d4]
            simp
          · intro m' hm'
            rcases List.mem_cons.mp hm' with hm1 | hm2
            · rw [hm1]
              refine ⟨le_of_eq hseq.symm, ?_⟩
              show m.seq <
                (drainBuffer (deliverFirst (orderRecord s m) m).buffer.length
                  (deliverFirst (orderRecord s m) m)).1.expected_seq
              rw [hseq]
              omega
            · obtain ⟨hlo, hhi⟩ := d5 m' hm2
              rw [hs1exp] at hlo
              exact ⟨by omega, hhi⟩
          · refine List.pairwise_cons.mpr ⟨?_, d6⟩
            intro m' hm'
            obtain ⟨hlo, _⟩ := d5 m' hm'
            rw [hs1exp] at hlo
            rw [hseq]
            omega

/-- Folding the WAL-line recovery step only grows `last_seq` and `history` /
`seen_order_uuids`; delivery fields, WAL and identity fields are untouched. -/
theorem recoverLine_foldl_facts (lines : List (Option OrderRec)) :
    ∀ s : NodeState,
    s.last_seq ≤ (lines.foldl recoverLine s).last_seq ∧
    (lines.foldl recoverLine s).buffer = s.buffer ∧
    (lines.foldl recoverLine s).expected_seq = s.expected_seq ∧
    (lines.foldl recoverLine s).delivered_seqs = s.delivered_seqs ∧
    (lines.foldl recoverLine s).wal = s.wal ∧
    (lines.foldl recoverLine s).epoch = s.epoch ∧
    (lines.foldl recoverLine s).role = s.role ∧
    (lines.foldl recoverLine s).leader = s.leader ∧
    (lines.foldl recoverLine s).node_id = s.node_id := by
  induction lines with
  | nil =>
    intro s
    exact ⟨le_refl _, rfl, rfl, rfl, rfl, rfl, rfl, rfl, rfl⟩
  | cons l ls ih =>
    intro s
    have hstep : s.last_seq ≤ (recoverLine s l).last_seq ∧
        (recoverLine s l).buffer = s.buffer ∧
        (recoverLine s l).expected_seq = s.expected_seq ∧
        (recoverLine s l).delivered_seqs = s.delivered_seqs ∧
        (recoverLine s l).wal = s.wal ∧
        (recoverLine s l).epoch = s.epoch ∧
        (recoverLine s l).role = s.role ∧
        (recoverLine s l).leader = s.leader ∧
        (recoverLine s l).node_id = s.node_id := by
      cases l with
      | none => exact ⟨le_refl _, rfl, rfl, rfl, rfl, rfl, rfl, rfl, rfl⟩
      | some r =>
        by_cases hr : 0 < r.seq
        · have : recoverLine s (some r) = { s with
              history := assocInsert r.seq r s.history,
              last_seq := max s.last_seq r.seq,
              seen_order_uuids :=
                if r.order_uuid ≠ "" then insert r.order_uuid s.seen_order_uuids
                else s.seen_order_uuids } := by
            simp [recoverLine, hr]
          rw [this]
          exact ⟨le_max_left _ _, rfl, rfl, rfl, rfl, rfl, rfl, rfl, rfl⟩
        · have : recoverLine s (some r) = s := by
            simp [recoverLine, hr]
          rw [this]
          exact ⟨le_refl _, rfl, rfl, rfl, rfl, rfl, rfl, rfl, rfl⟩
    have hfold := ih (recoverLine s l)
    simp only [List.foldl_cons]
    obtain ⟨a1, a2, a3, a4, a5, a6, a7, a8, a9⟩ := hstep
    obtain ⟨b1, b2, b3, b4, b5, b6, b7, b8, b9⟩ := hfold
    refine ⟨le_trans a1 b1, ?_, ?_, ?_, ?_, ?_, ?_, ?_, ?_⟩ <;>
      first
        | rw [b2, a2]
        | rw [b3, a3]
        | rw [b4, a4]
        | rw [b5, a5]
        | rw [b6, a6]
        | rw [b7, a7]
        | rw [b8, a8]
        | rw [b9, a9]

/-- `_recover_from_wal` preserves the delivery invariant, never moves
`expected_seq` or `last_seq` backwards, and never writes the WAL. -/
theorem recover_from_wal_spec (s : NodeState) (lines : List (Option OrderRec))
    (h : Inv s) :
    Inv (recover_from_wal s lines) ∧
    s.expected_seq ≤ (recover_from_wal s lines).expected_seq ∧
    s.last_seq ≤ (recover_from_wal s lines).last_seq ∧
    (recover_from_wal s lines).wal = s.wal := by
  obtain ⟨hdel, hone, hle, hbuf⟩ := h
  obtain ⟨f1, f2, f3, f4, f5, f6, f7, f8, f9⟩ := recoverLine_foldl_facts lines s
  have hexp : (recover_from_wal s lines).expected_seq =
      (lines.foldl recoverLine s).last_seq + 1 := rfl
  have hlast : (recover_from_wal s lines).last_seq =
      (lines.foldl recoverLine s).last_seq := rfl
  have hdel' : (recover_from_wal s lines).delivered_seqs =
      (lines.foldl recoverLine s).delivered_seqs ∪
        Finset.Ico 1 ((lines.foldl recoverLine s).last_seq + 1) := rfl
  have hwal : (recover_from_wal s lines).wal = (lines.foldl recoverLine s).wal := rfl
  have hbuf' : (recover_from_wal s lines).buffer =
      (lines.foldl recoverLine s).buffer := rfl
  refine ⟨⟨?_, ?_, ?_, ?_⟩, ?_, ?_, ?_⟩
  · rw [hdel', hexp, f4, hdel]
    have hsub : Finset.Ico (1:Int) s.expected_seq ⊆
        Finset.Ico 1 ((lines.foldl recoverLine s).last_seq + 1) :=
      Finset.Ico_subset_Ico (le_refl 1) (by omega)
    rw [Finset.union_eq_right.mpr hsub]
  · rw [hexp]
    omega
  · rw [hexp, hlast]
  · intro p hp
    rw [hbuf', f2] at hp
    have := hbuf p hp
    rw [hlast]
    omega
  · rw [hexp]
    omega
  · rw [hlast]
    exact f1
  · rw [hwal, f5]

/-- `_promote_to_leader` preserves the delivery invariant, never moves
`expected_seq` or `last_seq` backwards, and never writes the WAL. -/
theorem promote_to_leader_spec (s : NodeState) (e : Int) (h : Inv s) :
    Inv (promote_to_leader s e) ∧
    s.expected_seq ≤ (promote_to_leader s e).expected_seq ∧
    s.last_seq ≤ (promote_to_leader s e).last_seq ∧
    (promote_to_leader s e).wal = s.wal := by
  obtain ⟨hdel, hone, hle, hbuf⟩ := h
  have hlast : (promote_to_leader s e).last_seq =
      max s.last_seq (maxKeysDefault0 s.history) := rfl
  have hexp : (promote_to_leader s e).expected_seq =
      max s.expected_seq (max s.last_seq (maxKeysDefault0 s.history) + 1) := rfl
  have hdel' : (promote_to_leader s e).delivered_seqs =
      s.delivered_seqs ∪ Finset.Ico 1
        (max s.expected_seq (max s.last_seq (maxKeysDefault0 s.history) + 1)) := rfl
  have hwal : (promote_to_leader s e).wal = s.wal := rfl
  have hbuf'' : (promote_to_leader s e).buffer = s.buffer := rfl
  refine ⟨⟨?_, ?_, ?_, ?_⟩, ?_, ?_, ?_⟩
  · rw [hdel', hexp, hdel]
    have hsub : Finset.Ico (1:Int) s.expected_seq ⊆
        Finset.Ico 1 (max s.expected_seq (max s.last_seq (maxKeysDefault0 s.history) + 1)) :=
      Finset.Ico_subset_Ico (le_refl 1) (le_max_left _ _)
    rw [Finset.union_eq_right.mpr hsub]
  · rw [hexp]
    omega
  · rw [hexp, hlast]
    omega
  · intro p hp
    rw [hbuf''] at hp
    have := hbuf p hp
    rw [hlast]
    omega
  · rw [hexp]
    omega
  · rw [hlast]
    exact le_max_left _ _
  · exact hwal

/-- The drain loop does not touch history, identity, role, leader, epoch, or
the seen-uuid set. -/
theorem drainBuffer_misc (fuel : Nat) :
    ∀ s : NodeState,
    (drainBuffer fuel s).1.epoch = s.epoch ∧
    (drainBuffer fuel s).1.seen_order_uuids = s.seen_order_uuids ∧
    (drainBuffer fuel s).1.node_id = s.node_id ∧
    (drainBuffer fuel s).1.role = s.role ∧
    (drainBuffer fuel s).1.leader = s.leader ∧
    (drainBuffer fuel s).1.history = s.history ∧
    (drainBuffer fuel s).1.last_seq = s.last_seq := by
  induction fuel with
  | zero =>
    intro s
    exact ⟨rfl, rfl, rfl, rfl, rfl, rfl, rfl⟩
  | succ fuel ih =>
    intro s
    cases hf : assocLookup s.expected_seq s.buffer with
    | none =>
      have heq : drainBuffer (Nat.succ fuel) s = (s, []) := by
        simp [drainBuffer, hf]
      rw [heq]
      exact ⟨rfl, rfl, rfl, rfl, rfl, rfl, rfl⟩
    | some m2 =>
      by_cases hd : s.expected_seq ∈ s.delivered_seqs
      · have heq : drainBuffer (Nat.succ fuel) s = drainBuffer fuel { s with
            buffer := assocErase s.expected_seq s.buffer,
            expected_seq := s.expected_seq + 1 } := by
          simp [drainBuffer, hf, hd]
        rw [heq]
        exact ih _
      · rw [drainBuffer_succ_some hf hd]
        exact ih (drainNext s m2)

/-- `_process_order` does not touch identity, role, leader, epoch, or the
seen-uuid set. -/
theorem process_order_misc (s : NodeState) (msg : Option OrderRec) :
    (process_order s msg).1.epoch = s.epoch ∧
    (process_order s msg).1.seen_order_uuids = s.seen_order_uuids ∧
    (process_order s msg).1.node_id = s.node_id ∧
    (process_order s msg).1.role = s.role ∧
    (process_order s msg).1.leader = s.leader := by
  cases msg with
  | none => exact ⟨rfl, rfl, rfl, rfl, rfl⟩
  | some m =>
    by_cases h0 : m.seq ≤ 0
    · have heq : process_order s (some m) = (s, []) := by
        simp [process_order, h0]
      rw [heq]
      exact ⟨rfl, rfl, rfl, rfl, rfl⟩
    · by_cases hdup : m.seq ∈ (orderRecord s m).delivered_seqs ∨
          m.seq < (orderRecord s m).expected_seq
      · have heq : process_order s (some m) = (dedupMark (orderRecord s m) m, []) := by
          simp [process_order, h0, hdup]
        rw [heq]
        exact ⟨rfl, rfl, rfl, rfl, rfl⟩
      · by_cases hgap : (orderRecord s m).expected_seq < m.seq
        · have heq : process_order s (some m) = (bufferGap (orderRecord s m) m, []) := by
            simp [process_order, h0, hdup, hgap]
          rw [heq]
          exact ⟨rfl, rfl, rfl, rfl, rfl⟩
        · have heq : process_order s (some m) =
              ((drainBuffer (deliverFirst (orderRecord s m) m).buffer.length
                  (deliverFirst (orderRecord s m) m)).1,
                m :: (drainBuffer (deliverFirst (orderRecord s m) m).buffer.length
                  (deliverFirst (orderRecord s m) m)).2) := by
            simp [process_order, h0, hdup, hgap]
          rw [heq]
          obtain ⟨d1, d2, d3, d4, d5, _⟩ :=
            drainBuffer_misc (deliverFirst (orderRecord s m) m).buffer.length
              (deliverFirst (orderRecord s m) m)
          exact ⟨d1, d2, d3, d4, d5⟩

theorem acceptState_facts (s : NodeState) (u : String) :
    (acceptState s u).last_seq = s.last_seq ∧
    (acceptState s u).history = s.history ∧
    (acceptState s u).expected_seq = s.expected_seq ∧
    (acceptState s u).delivered_seqs = s.delivered_seqs ∧
    (acceptState s u).buffer = s.buffer ∧
    (acceptState s u).wal = s.wal ∧
    (acceptState s u).epoch = s.epoch ∧
    (acceptState s u).node_id = s.node_id := by
  unfold acceptState
  by_cases hu : u ≠ "" <;> simp [hu]

/-- The NEW_ORDER handler preserves the delivery invariant, never moves
`expected_seq` or `last_seq` backwards, and delivers records with strictly
ascending seqs in `[old expected_seq, new expected_seq)`. -/
theorem handle_new_order_spec (s : NodeState) (sid : Option Int)
    (uf : Option String) (p : String) (h : Inv s) :
    Inv (handle_new_order s sid uf p).1 ∧
    s.expected_seq ≤ (handle_new_order s sid uf p).1.expected_seq ∧
    s.last_seq ≤ (handle_new_order s sid uf p).1.last_seq ∧
    (∀ m ∈ (handle_new_order s sid uf p).2.1,
      s.expected_seq ≤ m.seq ∧ m.seq < (handle_new_order s sid uf p).1.expected_seq) ∧
    (handle_new_order s sid uf p).2.1.Pairwise (fun a b => a.seq < b.seq) := by
  obtain ⟨hdel, hone, hle, hbuf⟩ := h
  by_cases hdup : uf.getD ("") ≠ "" ∧ uf.getD ("") ∈ s.seen_order_uuids
  · have heq : handle_new_order s sid uf p = (s, [], none) := by
      simp only [handle_new_order]
      rw [if_pos hdup]
    rw [heq]
    exact ⟨⟨hdel, hone, hle, hbuf⟩, le_refl _, le_refl _,
      by intro m hm; simp at hm, by simp⟩
  · have heq : handle_new_order s sid uf p =
        ((process_order
            (preBroadcastState (acceptState s (uf.getD ("")))
              (newOrderMsg (acceptState s (uf.getD (""))) sid (uf.getD ("")) p))
            (some (newOrderMsg (acceptState s (uf.getD (""))) sid (uf.getD ("")) p))).1,
          (process_order
            (preBroadcastState (acceptState s (uf.getD ("")))
              (newOrderMsg (acceptState s (uf.getD (""))) sid (uf.getD ("")) p))
            (some (newOrderMsg (acceptState s (uf.getD (""))) sid (uf.getD ("")) p))).2,
          some (newOrderMsg (acceptState s (uf.getD (""))) sid (uf.getD ("")) p).seq) := by
      simp only [handle_new_order]
      rw [if_neg hdup]
    obtain ⟨a1, a2, a3, a4, a5, a6, a7, a8⟩ := acceptState_facts s (uf.getD (""))
    have homseq : (newOrderMsg (acceptState s (uf.getD (""))) sid (uf.getD ("")) p).seq =
        max s.last_seq (maxKeysDefault0 s.history) + 1 := by
      show allocSeq (acceptState s (uf.getD (""))) = _
      unfold allocSeq
      rw [a1, a2]
    set s0 := acceptState s (uf.getD ("")) with hs0
    set om := newOrderMsg s0 sid (uf.getD ("")) p with hom
    have hp_exp : (preBroadcastState s0 om).expected_seq = s.expected_seq := by
      show s0.expected_seq = s.expected_seq
      exact a3
    have hp_del : (preBroadcastState s0 om).delivered_seqs = s.delivered_seqs := by
      show s0.delivered_seqs = s.delivered_seqs
      exact a4
    have hp_buf : (preBroadcastState s0 om).buffer = s.buffer := by
      show s0.buffer = s.buffer
      exact a5
    have hp_last : (preBroadcastState s0 om).last_seq =
        max s.last_seq (maxKeysDefault0 s.history) + 1 := by
      show om.seq = _
      exact homseq
    have hpinv : Inv (preBroadcastState s0 om) := by
      refine ⟨?_, ?_, ?_, ?_⟩
      · rw [hp_del, hp_exp, hdel]
      · rw [hp_exp]
        exact hone
      · rw [hp_exp, hp_last]
        omega
      · intro q hq
        rw [hp_buf] at hq
        have := hbuf q hq
        rw [hp_last]
        omega
    obtain ⟨p1, p2, p3, p4, p5, p6⟩ :=
      process_order_spec (preBroadcastState s0 om) (some om) hpinv
    rw [hp_exp] at p2
    rw [hp_last] at p3
    rw [heq]
    refine ⟨p1, p2, ?_, ?_, p6⟩
    · show s.last_seq ≤ (process_order (preBroadcastState s0 om) (some om)).1.last_seq
      omega
    · intro m hm
      obtain ⟨hlo, hhi⟩ := p5 m hm
      rw [hp_exp] at hlo
      exact ⟨hlo, hhi⟩

/-- The UDP control handlers (`I_AM_LEADER`, `LEADER_ALIVE`, `COORDINATOR`,
election-completion adoption, demotion) never touch the delivery state, the
WAL, the history, or the seen-uuid set. -/
def SameDelivery (s t : NodeState) : Prop :=
  t.expected_seq = s.expected_seq ∧ t.delivered_seqs = s.delivered_seqs ∧
  t.buffer = s.buffer ∧ t.last_seq = s.last_seq ∧ t.wal = s.wal ∧
  t.history = s.history ∧ t.seen_order_uuids = s.seen_order_uuids

theorem sameDelivery_Inv {s t : NodeState} (hd : SameDelivery s t) (h : Inv s) :
    Inv t := by
  obtain ⟨d1, d2, d3, d4, d5, _, _⟩ := hd
  obtain ⟨h1, h2, h3, h4⟩ := h
  refine ⟨?_, ?_, ?_, ?_⟩
  · rw [d2, d1, h1]
  · rw [d1]
    exact h2
  · rw [d1, d4]
    exact h3
  · intro q hq
    rw [d3] at hq
    have := h4 q hq
    rw [d4]
    omega

theorem handle_i_am_leader_sameDelivery (s : NodeState) (ip : String)
    (lid ltcp e ls : Int) :
    SameDelivery s (handle_i_am_leader s ip lid ltcp e ls) := by
  simp only [handle_i_am_leader, SameDelivery]
  split_ifs <;> simp

theorem handle_leader_alive_sameDelivery (s : NodeState) (ip : String)
    (lid e ls ltcp : Int) :
    SameDelivery s (handle_leader_alive s ip lid e ls ltcp) := by
  simp only [handle_leader_alive, SameDelivery]
  cases hL : s.leader <;> simp only [hL] <;> split_ifs <;> simp

theorem handle_coordinator_sameDelivery (s : NodeState) (ip : String)
    (lid e ltcp ls : Int) :
    SameDelivery s (handle_coordinator s ip lid e ltcp ls) := by
  simp only [handle_coordinator, SameDelivery]
  split_ifs <;> simp

theorem election_adopt_sameDelivery (s : NodeState) (lid : Int) (lip : String)
    (ltcp e ls : Int) :
    SameDelivery s (election_adopt_coordinator s lid lip ltcp e ls) := by
  simp only [election_adopt_coordinator, SameDelivery]
  simp

theorem demote_sameDelivery (s : NodeState) (nl : LeaderInfo) :
    SameDelivery s (demote_to_follower s nl) := by
  simp only [demote_to_follower, SameDelivery]
  split_ifs <;> simp

/-- One step of any handled event preserves the invariant, never moves
`expected_seq` backwards, and delivers records with strictly ascending seqs
in `[old expected_seq, new expected_seq)`. -/
theorem step_spec (s : NodeState) (ev : Event) (h : Inv s) :
    Inv (step s ev).1 ∧
    s.expected_seq ≤ (step s ev).1.expected_seq ∧
    (∀ m ∈ (step s ev).2,
      s.expected_seq ≤ m.seq ∧ m.seq < (step s ev).1.expected_seq) ∧
    (step s ev).2.Pairwise (fun a b => a.seq < b.seq) := by
  cases ev with
  | order msg =>
    obtain ⟨p1, p2, _, _, p5, p6⟩ := process_order_spec s msg h
    exact ⟨p1, p2, p5, p6⟩
  | newOrder sid uf p =>
    obtain ⟨p1, p2, _, p4, p5⟩ := handle_new_order_spec s sid uf p h
    exact ⟨p1, p2, p4, p5⟩
  | recover lines =>
    obtain ⟨p1, p2, _, _⟩ := recover_from_wal_spec s lines h
    exact ⟨p1, p2, by intro m hm; simp [step] at hm, by simp [step]⟩
  | promote e =>
    obtain ⟨p1, p2, _, _⟩ := promote_to_leader_spec s e h
    exact ⟨p1, p2, by intro m hm; simp [step] at hm, by simp [step]⟩
  | demote nl =>
    have hd := demote_sameDelivery s nl
    exact ⟨sameDelivery_Inv hd h, le_of_eq hd.1.symm,
      by intro m hm; simp [step] at hm, by simp [step]⟩
  | iAmLeader ip lid ltcp e ls =>
    have hd := handle_i_am_leader_sameDelivery s ip lid ltcp e ls
    exact ⟨sameDelivery_Inv hd h, le_of_eq hd.1.symm,
      by intro m hm; simp [step] at hm, by simp [step]⟩
  | leaderAlive ip lid e ls ltcp =>
    have hd := handle_leader_alive_sameDelivery s ip lid e ls ltcp
    exact ⟨sameDelivery_Inv hd h, le_of_eq hd.1.symm,
      by intro m hm; simp [step] at hm, by simp [step]⟩
  | coordinator ip lid e ltcp ls =>
    have hd := handle_coordinator_sameDelivery s ip lid e ltcp ls
    exact ⟨sameDelivery_Inv hd h, le_of_eq hd.1.symm,
      by intro m hm; simp [step] at hm, by simp [step]⟩
  | electionAdopt lid lip ltcp e ls =>
    have hd := election_adopt_sameDelivery s lid lip ltcp e ls
    exact ⟨sameDelivery_Inv hd h, le_of_eq hd.1.symm,
      by intro m hm; simp [step] at hm, by simp [step]⟩

/-- Running events from any invariant state with a log whose seqs are all
below `expected_seq` and pairwise ascending keeps all three properties. -/
theorem runFrom_spec (evs : List Event) :
    ∀ (s : NodeState) (log : List OrderRec), Inv s →
    (∀ m ∈ log, m.seq < s.expected_seq) →
    log.Pairwise (fun a b => a.seq < b.seq) →
    Inv (runFrom (s, log) evs).1 ∧
    (∀ m ∈ (runFrom (s, log) evs).2, m.seq < (runFrom (s, log) evs).1.expected_seq) ∧
    (runFrom (s, log) evs).2.Pairwise (fun a b => a.seq < b.seq) := by
  induction evs with
  | nil =>
    intro s log h hlog hpw
    exact ⟨h, hlog, hpw⟩
  | cons ev evs ih =>
    intro s log h hlog hpw
    obtain ⟨s1, e1, b1, pw1⟩ := step_spec s ev h
    have hlog' : ∀ m ∈ log ++ (step s ev).2, m.seq < (step s ev).1.expected_seq := by
      intro m hm
      rcases List.mem_append.mp hm with hm1 | hm2
      · have := hlog m hm1
        omega
      · exact (b1 m hm2).2
    have hpw' : (log ++ (step s ev).2).Pairwise (fun a b => a.seq < b.seq) := by
      refine List.pairwise_append.mpr ⟨hpw, pw1, ?_⟩
      intro x hx y hy
      have hx' := hlog x hx
      have hy' := (b1 y hy).1
      omega
    have heq : runFrom (s, log) (ev :: evs) =
        runFrom ((step s ev).1, log ++ (step s ev).2) evs := rfl
    rw [heq]
    exact ih (step s ev).1 (log ++ (step s ev).2) s1 hlog' hpw'

/-- C1: On every node, over any lifetime (fresh `__init__` state followed by
any sequence of handled operations, including `_process_order` on arbitrary
inbound ORDER records, `_recover_from_wal` and `_promote_to_leader`), the
delivery state satisfies: every sequence number in `[1, expected_seq)` is in
`delivered_seqs` and `expected_seq - 1` is the largest contiguously delivered
prefix (equivalently `expected_seq ∉ delivered_seqs`); moreover the process's
delivery log has strictly ascending seqs (so each seq is delivered at most
once per process lifetime, witnessed by the `Nodup` conjunct). -/
theorem claimC1_delivery_invariant (node_id : Int) (role : Role)
    (evs : List Event) :
    (∀ k : Int, 1 ≤ k → k < (runTrace node_id role evs).1.expected_seq →
        k ∈ (runTrace node_id role evs).1.delivered_seqs) ∧
    (runTrace node_id role evs).1.expected_seq ∉
      (runTrace node_id role evs).1.delivered_seqs ∧
    ((runTrace node_id role evs).2.map OrderRec.seq).Pairwise (· < ·) ∧
    ((runTrace node_id role evs).2.map OrderRec.seq).Nodup := by
  obtain ⟨h1, h2, h3⟩ := runFrom_spec evs (initState node_id role) []
    (initState_Inv node_id role) (by intro m hm; simp at hm) (by simp)
  obtain ⟨hdel, hone, hle, hbuf⟩ := h1
  have hpw : ((runTrace node_id role evs).2.map OrderRec.seq).Pairwise (· < ·) := by
    simp only [runTrace]
    exact List.pairwise_map.mpr h3
  refine ⟨?_, ?_, hpw, ?_⟩
  · intro k hk1 hk2
    show k ∈ (runFrom (initState node_id role, []) evs).1.delivered_seqs
    rw [hdel]
    simp only [Finset.mem_Ico]
    exact ⟨hk1, hk2⟩
  · show (runTrace node_id role evs).1.expected_seq ∉
      (runFrom (initState node_id role, []) evs).1.delivered_seqs
    rw [hdel]
    simp [runTrace]
  · exact List.Pairwise.imp (fun hab => ne_of_lt hab) hpw

/-! ### Epoch monotonicity (claim C5 machinery) -/

theorem handle_new_order_epoch (s : NodeState) (sid : Option Int)
    (uf : Option String) (p : String) :
    (handle_new_order s sid uf p).1.epoch = s.epoch := by
  by_cases hdup : uf.getD ("") ≠ "" ∧ uf.getD ("") ∈ s.seen_order_uuids
  · have heq : handle_new_order s sid uf p = (s, [], none) := by
      simp only [handle_new_order]
      rw [if_pos hdup]
    rw [heq]
  · have heq : (handle_new_order s sid uf p).1 =
        (process_order
          (preBroadcastState (acceptState s (uf.getD ("")))
            (newOrderMsg (acceptState s (uf.getD (""))) sid (uf.getD ("")) p))
          (some (newOrderMsg (acceptState s (uf.getD (""))) sid (uf.getD ("")) p))).1 := by
      simp only [handle_new_order]
      rw [if_neg hdup]
    rw [heq, (process_order_misc _ _).1]
    show (acceptState s (uf.getD (""))).epoch = s.epoch
    exact (acceptState_facts s (uf.getD (""))).2.2.2.2.2.2.1

theorem recover_from_wal_epoch (s : NodeState) (lines : List (Option OrderRec)) :
    (recover_from_wal s lines).epoch = s.epoch := by
  have h1 : (recover_from_wal s lines).epoch = (lines.foldl recoverLine s).epoch := rfl
  rw [h1]
  exact (recoverLine_foldl_facts lines s).2.2.2.2.2.1

/-- C5: on every node, no handled event ever decreases the `epoch` field:
each of `_process_order`, the NEW_ORDER handler, `_recover_from_wal`,
`_promote_to_leader`, `_demote_to_follower`, and the I_AM_LEADER /
LEADER_ALIVE / COORDINATOR receipt and election-completion handlers maps a
state to one with an epoch at least as large, so every observed sequence of
epoch values is non-decreasing. -/
theorem claimC5_epoch_monotone (s : NodeState) (ev : Event) :
    s.epoch ≤ (step s ev).1.epoch := by
  cases ev with
  | order msg => exact le_of_eq ((process_order_misc s msg).1).symm
  | newOrder sid uf p => exact le_of_eq (handle_new_order_epoch s sid uf p).symm
  | recover lines => exact le_of_eq (recover_from_wal_epoch s lines).symm
  | promote e =>
    show s.epoch ≤ max (s.epoch + 1) e
    omega
  | demote nl =>
    show s.epoch ≤ (demote_to_follower s nl).epoch
    simp only [demote_to_follower]
    split_ifs <;> simp
  | iAmLeader ip lid ltcp e ls =>
    show s.epoch ≤ (handle_i_am_leader s ip lid ltcp e ls).epoch
    simp only [handle_i_am_leader]
    split_ifs <;> simp
  | leaderAlive ip lid e ls ltcp =>
    show s.epoch ≤ (handle_leader_alive s ip lid e ls ltcp).epoch
    simp only [handle_leader_alive]
    cases hL : s.leader <;> split_ifs <;> simp <;> split_ifs <;> simp
  | coordinator ip lid e ltcp ls =>
    show s.epoch ≤ (handle_coordinator s ip lid e ltcp ls).epoch
    simp only [handle_coordinator]
    split_ifs <;> simp
  | electionAdopt lid lip ltcp e ls =>
    show s.epoch ≤ max s.epoch e
    exact le_max_left s.epoch e

/-! ### Leader NEW_ORDER sequencing (claims C2 and C10 machinery) -/

theorem assocLookup_insert (k : Int) (v : OrderRec) (m : List (Int × OrderRec)) :
    assocLookup k (assocInsert k v m) = some v := by
  simp [assocLookup, assocInsert]

theorem process_order_last_mono (s : NodeState) (msg : Option OrderRec) :
    s.last_seq ≤ (process_order s msg).1.last_seq := by
  cases msg with
  | none => exact le_refl _
  | some m =>
    by_cases h0 : m.seq ≤ 0
    · have heq : process_order s (some m) = (s, []) := by
        simp [process_order, h0]
      rw [heq]
    · by_cases hdup : m.seq ∈ (orderRecord s m).delivered_seqs ∨
          m.seq < (orderRecord s m).expected_seq
      · have heq : process_order s (some m) = (dedupMark (orderRecord s m) m, []) := by
          simp [process_order, h0, hdup]
        rw [heq]
        exact le_max_left _ _
      · by_cases hgap : (orderRecord s m).expected_seq < m.seq
        · have heq : process_order s (some m) = (bufferGap (orderRecord s m) m, []) := by
            simp [process_order, h0, hdup, hgap]
          rw [heq]
          exact le_max_left _ _
        · have heq : process_order s (some m) =
              ((drainBuffer (deliverFirst (orderRecord s m) m).buffer.length
                  (deliverFirst (orderRecord s m) m)).1,
                m :: (drainBuffer (deliverFirst (orderRecord s m) m).buffer.length
                  (deliverFirst (orderRecord s m) m)).2) := by
            simp [process_order, h0, hdup, hgap]
          rw [heq]
          have hlast := (drainBuffer_misc
            (deliverFirst (orderRecord s m) m).buffer.length
            (deliverFirst (orderRecord s m) m)).2.2.2.2.2.2
          have : (deliverFirst (orderRecord s m) m).last_seq = max s.last_seq m.seq := rfl
          show s.last_seq ≤ (drainBuffer (deliverFirst (orderRecord s m) m).buffer.length
            (deliverFirst (orderRecord s m) m)).1.last_seq
          rw [hlast, this]
          exact le_max_left _ _

/-- Its `seq` key stays bound to a record `m` through `_process_order m`
(only inserts happen, and the insert at `m.seq` re-stores `m` itself). -/
theorem process_order_history_self (s : NodeState) (m : OrderRec)
    (hpre : assocLookup m.seq s.history = some m) :
    assocLookup m.seq (process_order s (some m)).1.history = some m := by
  by_cases h0 : m.seq ≤ 0
  · have heq : process_order s (some m) = (s, []) := by
      simp [process_order, h0]
    rw [heq]
    exact hpre
  · by_cases hdup : m.seq ∈ (orderRecord s m).delivered_seqs ∨
        m.seq < (orderRecord s m).expected_seq
    · have heq : process_order s (some m) = (dedupMark (orderRecord s m) m, []) := by
        simp [process_order, h0, hdup]
      rw [heq]
      exact assocLookup_insert m.seq m s.history
    · by_cases hgap : (orderRecord s m).expected_seq < m.seq
      · have heq : process_order s (some m) = (bufferGap (orderRecord s m) m, []) := by
          simp [process_order, h0, hdup, hgap]
        rw [heq]
        exact assocLookup_insert m.seq m s.history
      · have heq : process_order s (some m) =
            ((drainBuffer (deliverFirst (orderRecord s m) m).buffer.length
                (deliverFirst (orderRecord s m) m)).1,
              m :: (drainBuffer (deliverFirst (orderRecord s m) m).buffer.length
                (deliverFirst (orderRecord s m) m)).2) := by
          simp [process_order, h0, hdup, hgap]
        rw [heq]
        have hhist := (drainBuffer_misc
          (deliverFirst (orderRecord s m) m).buffer.length
          (deliverFirst (orderRecord s m) m)).2.2.2.2.2.1
        show assocLookup m.seq (drainBuffer (deliverFirst (orderRecord s m) m).buffer.length
          (deliverFirst (orderRecord s m) m)).1.history = some m
        rw [hhist]
        exact assocLookup_insert m.seq m s.history

/-- A NEW_ORDER whose non-empty uuid is already in `seen_order_uuids` is
dropped with the whole node state unchanged. -/
theorem handle_new_order_dup (s : NodeState) (sid : Option Int) (u p : String)
    (hu : u ≠ "") (hseen : u ∈ s.seen_order_uuids) :
    handle_new_order s sid (some u) p = (s, [], none) := by
  simp only [handle_new_order, Option.getD_some]
  rw [if_pos ⟨hu, hseen⟩]

/-- N repeated byte-identical NEW_ORDER messages handled back to back; the
second component collects every allocated sequence number. -/
def repeatNewOrder : Nat → NodeState → Option Int → Option String → String →
    NodeState × List Int
  | 0, s, _, _, _ => (s, [])
  | Nat.succ n, s, sid, uf, p =>
    let r := handle_new_order s sid uf p
    let rest := repeatNewOrder n r.1 sid uf p
    (rest.1, r.2.2.toList ++ rest.2)

theorem repeatNewOrder_seen_stable (sid : Option Int) (u p : String)
    (hu : u ≠ "") (n : Nat) :
    ∀ s : NodeState, u ∈ s.seen_order_uuids →
    repeatNewOrder n s sid (some u) p = (s, []) := by
  induction n with
  | zero =>
    intro s _
    rfl
  | succ n ih =>
    intro s hs
    have hdrop := handle_new_order_dup s sid u p hu hs
    show (let r := handle_new_order s sid (some u) p
      let rest := repeatNewOrder n r.1 sid (some u) p
      (rest.1, r.2.2.toList ++ rest.2)) = (s, [])
    rw [hdrop]
    simp only [Option.toList_none, List.nil_append]
    rw [ih s hs]

/-- Facts about an accepted (non-duplicate) NEW_ORDER: the allocated seq is
`max(last_seq, max(history.keys(), default 0)) + 1`, the seen-set is the
accept-time insert, `last_seq` ends at least at the allocated seq, and the
history binds the allocated seq to the constructed ORDER record. -/
theorem handle_new_order_accept_facts (s : NodeState) (sid : Option Int)
    (uf : Option String) (p : String)
    (hacc : ¬ (uf.getD ("") ≠ "" ∧ uf.getD ("") ∈ s.seen_order_uuids)) :
    (handle_new_order s sid uf p).2.2 =
      some (max s.last_seq (maxKeysDefault0 s.history) + 1) ∧
    (handle_new_order s sid uf p).1.seen_order_uuids =
      (acceptState s (uf.getD (""))).seen_order_uuids ∧
    max s.last_seq (maxKeysDefault0 s.history) + 1 ≤
      (handle_new_order s sid uf p).1.last_seq ∧
    assocLookup (max s.last_seq (maxKeysDefault0 s.history) + 1)
      (handle_new_order s sid uf p).1.history =
      some (newOrderMsg (acceptState s (uf.getD (""))) sid (uf.getD ("")) p) := by
  obtain ⟨a1, a2, a3, a4, a5, a6, a7, a8⟩ := acceptState_facts s (uf.getD (""))
  have homseq : (newOrderMsg (acceptState s (uf.getD (""))) sid (uf.getD ("")) p).seq =
      max s.last_seq (maxKeysDefault0 s.history) + 1 := by
    show allocSeq (acceptState s (uf.getD (""))) = _
    unfold allocSeq
    rw [a1, a2]
  set s0 := acceptState s (uf.getD ("")) with hs0
  set om := newOrderMsg s0 sid (uf.getD ("")) p with hom
  have heq : handle_new_order s sid uf p =
      ((process_order (preBroadcastState s0 om) (some om)).1,
        (process_order (preBroadcastState s0 om) (some om)).2,
        some om.seq) := by
    simp only [handle_new_order]
    rw [if_neg hacc]
  rw [heq]
  have hp_last : (preBroadcastState s0 om).last_seq = om.seq := rfl
  have hp_hist : (preBroadcastState s0 om).history =
      assocInsert om.seq om s0.history := rfl
  refine ⟨?_, ?_, ?_, ?_⟩
  · show some om.seq = some (max s.last_seq (maxKeysDefault0 s.history) + 1)
    rw [homseq]
  · show (process_order (preBroadcastState s0 om) (some om)).1.seen_order_uuids =
      s0.seen_order_uuids
    rw [(process_order_misc _ _).2.1]
    rfl
  · have hmono := process_order_last_mono (preBroadcastState s0 om) (some om)
    rw [hp_last, homseq] at hmono
    show max s.last_seq (maxKeysDefault0 s.history) + 1 ≤
      (process_order (preBroadcastState s0 om) (some om)).1.last_seq
    exact hmono
  · have hpre : assocLookup om.seq (preBroadcastState s0 om).history = some om := by
      rw [hp_hist]
      exact assocLookup_insert om.seq om s0.history
    have := process_order_history_self (preBroadcastState s0 om) om hpre
    show assocLookup (max s.last_seq (maxKeysDefault0 s.history) + 1)
      (process_order (preBroadcastState s0 om) (some om)).1.history = some om
    rw [← homseq]
    exact this

/-- C2: on the leader, a NEW_ORDER carrying a non-empty uuid not yet seen
inserts the uuid, allocates exactly
`seq = max(last_seq, max(history.keys, default 0)) + 1`, stores the
constructed ORDER record — carrying the current epoch, the uuid, the payload
and the node's id — in history at that seq; and handling the same message
N ≥ 1 times allocates exactly one sequence number, every repetition after the
first leaving the state unchanged. -/
theorem claimC2_idempotent_allocation (s : NodeState) (sid : Option Int)
    (u p : String) (n : Nat)
    (hu : u ≠ "") (hseen : u ∉ s.seen_order_uuids) (hn : 1 ≤ n) :
    u ∈ (handle_new_order s sid (some u) p).1.seen_order_uuids ∧
    (handle_new_order s sid (some u) p).2.2 =
      some (max s.last_seq (maxKeysDefault0 s.history) + 1) ∧
    (∃ om : OrderRec,
      assocLookup (max s.last_seq (maxKeysDefault0 s.history) + 1)
        (handle_new_order s sid (some u) p).1.history = some om ∧
      om.epoch = s.epoch ∧
      om.seq = max s.last_seq (maxKeysDefault0 s.history) + 1 ∧
      om.order_uuid = u ∧ om.payload = p ∧ om.leader_id = s.node_id) ∧
    repeatNewOrder n s sid (some u) p =
      ((handle_new_order s sid (some u) p).1,
        [max s.last_seq (maxKeysDefault0 s.history) + 1]) := by
  have hgd : (some u).getD ("") = u := rfl
  have hacc : ¬ ((some u).getD ("") ≠ "" ∧ (some u).getD ("") ∈ s.seen_order_uuids) := by
    rw [hgd]
    intro hc
    exact hseen hc.2
  obtain ⟨f1, f2, f3, f4⟩ := handle_new_order_accept_facts s sid (some u) p hacc
  have hseenacc : (acceptState s ((some u).getD (""))).seen_order_uuids =
      insert u s.seen_order_uuids := by
    rw [hgd]
    simp [acceptState, hu]
  have humem : u ∈ (handle_new_order s sid (some u) p).1.seen_order_uuids := by
    rw [f2, hseenacc]
    exact Finset.mem_insert_self u s.seen_order_uuids
  refine ⟨humem, f1, ?_, ?_⟩
  · refine ⟨newOrderMsg (acceptState s ((some u).getD (""))) sid ((some u).getD ("")) p,
      f4, ?_, ?_, ?_, ?_, ?_⟩
    · show (acceptState s ((some u).getD (""))).epoch = s.epoch
      exact (acceptState_facts s _).2.2.2.2.2.2.1
    · show allocSeq (acceptState s ((some u).getD (""))) = _
      unfold allocSeq
      rw [(acceptState_facts s _).1, (acceptState_facts s _).2.1]
    · rfl
    · rfl
    · show (acceptState s ((some u).getD (""))).node_id = s.node_id
      exact (acceptState_facts s _).2.2.2.2.2.2.2
  · cases n with
    | zero => omega
    | succ m =>
      have hstep : repeatNewOrder (Nat.succ m) s sid (some u) p =
          ((repeatNewOrder m (handle_new_order s sid (some u) p).1 sid (some u) p).1,
            (handle_new_order s sid (some u) p).2.2.toList ++
              (repeatNewOrder m (handle_new_order s sid (some u) p).1 sid (some u) p).2) := rfl
      rw [hstep,
        repeatNewOrder_seen_stable sid u p hu m
          (handle_new_order s sid (some u) p).1 humem, f1]
      simp

/-- Witness for C2: a concrete fresh leader, uuid `"u1"`, two repetitions. -/
theorem claimC2_idempotent_allocation_witness :
    "u1" ∈ (handle_new_order (initState 10 Role.leader) (some 2)
      (some ("u1")) "espresso").1.seen_order_uuids ∧
    (handle_new_order (initState 10 Role.leader) (some 2)
      (some ("u1")) "espresso").2.2 =
      some (max (initState 10 Role.leader).last_seq
        (maxKeysDefault0 (initState 10 Role.leader).history) + 1) ∧
    (∃ om : OrderRec,
      assocLookup (max (initState 10 Role.leader).last_seq
          (maxKeysDefault0 (initState 10 Role.leader).history) + 1)
        (handle_new_order (initState 10 Role.leader) (some 2)
          (some ("u1")) "espresso").1.history = some om ∧
      om.epoch = (initState 10 Role.leader).epoch ∧
      om.seq = max (initState 10 Role.leader).last_seq
        (maxKeysDefault0 (initState 10 Role.leader).history) + 1 ∧
      om.order_uuid = "u1" ∧ om.payload = "espresso" ∧
      om.leader_id = (initState 10 Role.leader).node_id) ∧
    repeatNewOrder 2 (initState 10 Role.leader) (some 2) (some ("u1")) "espresso" =
      ((handle_new_order (initState 10 Role.leader) (some 2)
          (some ("u1")) "espresso").1,
        [max (initState 10 Role.leader).last_seq
          (maxKeysDefault0 (initState 10 Role.leader).history) + 1]) :=
  claimC2_idempotent_allocation (initState 10 Role.leader) (some 2)
    "u1" "espresso" 2 (by decide) (by simp [initState]) (by omega)

theorem acceptState_empty (s : NodeState) : acceptState s ("") = s := by
  simp [acceptState]

/-- With a missing-or-empty uuid every repetition is accepted: the allocation
list over n repetitions has n entries, strictly increasing, all above the
starting `last_seq`, and the seen-set never changes. -/
theorem repeatNewOrder_empty_spec (sid : Option Int) (p : String)
    (uf : Option String) (hu : uf.getD ("") = "") (n : Nat) :
    ∀ s : NodeState,
    (repeatNewOrder n s sid uf p).2.length = n ∧
    (∀ a ∈ (repeatNewOrder n s sid uf p).2, s.last_seq < a) ∧
    (repeatNewOrder n s sid uf p).2.Pairwise (· < ·) ∧
    (repeatNewOrder n s sid uf p).1.seen_order_uuids = s.seen_order_uuids := by
  induction n with
  | zero =>
    intro s
    exact ⟨rfl, by intro a ha; simp [repeatNewOrder] at ha, by simp [repeatNewOrder], rfl⟩
  | succ n ih =>
    intro s
    have hacc : ¬ (uf.getD ("") ≠ "" ∧ uf.getD ("") ∈ s.seen_order_uuids) := by
      rw [hu]
      simp
    obtain ⟨f1, f2, f3, _⟩ := handle_new_order_accept_facts s sid uf p hacc
    have hseen_eq : (handle_new_order s sid uf p).1.seen_order_uuids =
        s.seen_order_uuids := by
      rw [f2, hu, acceptState_empty]
    have hstep : repeatNewOrder (Nat.succ n) s sid uf p =
        ((repeatNewOrder n (handle_new_order s sid uf p).1 sid uf p).1,
          (handle_new_order s sid uf p).2.2.toList ++
            (repeatNewOrder n (handle_new_order s sid uf p).1 sid uf p).2) := rfl
    obtain ⟨i1, i2, i3, i4⟩ := ih (handle_new_order s sid uf p).1
    rw [hstep, f1]
    simp only [Option.toList_some, List.singleton_append, List.length_cons,
      List.mem_cons, List.pairwise_cons]
    refine ⟨by omega, ?_, ⟨?_, i3⟩, by rw [i4, hseen_eq]⟩
    · intro a ha
      rcases ha with ha | ha
      · omega
      · have := i2 a ha
        omega
    · intro a ha
      have := i2 a ha
      omega

/-- C10: a NEW_ORDER whose `order_uuid` is missing or empty bypasses
deduplication: the uuid set is unchanged, the allocated seq is always
`max(last_seq, max(history.keys, default 0)) + 1`, and n byte-identical
repetitions each get a fresh (strictly increasing, never-reused) sequence
number. -/
theorem claimC10_empty_uuid_bypasses_dedup (s : NodeState) (sid : Option Int)
    (p : String) (n : Nat) (uf : Option String)
    (h : uf = none ∨ uf = some ("")) :
    (handle_new_order s sid uf p).1.seen_order_uuids = s.seen_order_uuids ∧
    (handle_new_order s sid uf p).2.2 =
      some (max s.last_seq (maxKeysDefault0 s.history) + 1) ∧
    (repeatNewOrder n s sid uf p).2.length = n ∧
    (∀ a ∈ (repeatNewOrder n s sid uf p).2, s.last_seq < a) ∧
    (repeatNewOrder n s sid uf p).2.Pairwise (· < ·) := by
  have hu : uf.getD ("") = "" := by
    rcases h with h | h <;> rw [h] <;> rfl
  have hacc : ¬ (uf.getD ("") ≠ "" ∧ uf.getD ("") ∈ s.seen_order_uuids) := by
    rw [hu]
    simp
  obtain ⟨f1, f2, _, _⟩ := handle_new_order_accept_facts s sid uf p hacc
  obtain ⟨r1, r2, r3, _⟩ := repeatNewOrder_empty_spec sid p uf hu n s
  exact ⟨by rw [f2, hu, acceptState_empty], f1, r1, r2, r3⟩

/-- Witness for C10: a concrete fresh leader, empty uuid, three repetitions. -/
theorem claimC10_empty_uuid_bypasses_dedup_witness :
    (handle_new_order (initState 3 Role.leader) none (some ("")) "t").1.seen_order_uuids =
      (initState 3 Role.leader).seen_order_uuids ∧
    (handle_new_order (initState 3 Role.leader) none (some ("")) "t").2.2 =
      some (max (initState 3 Role.leader).last_seq
        (maxKeysDefault0 (initState 3 Role.leader).history) + 1) ∧
    (repeatNewOrder 3 (initState 3 Role.leader) none (some ("")) "t").2.length = 3 ∧
    (∀ a ∈ (repeatNewOrder 3 (initState 3 Role.leader) none (some ("")) "t").2,
      (initState 3 Role.leader).last_seq < a) ∧
    (repeatNewOrder 3 (initState 3 Role.leader) none (some ("")) "t").2.Pairwise (· < ·) :=
  claimC10_empty_uuid_bypasses_dedup (initState 3 Role.leader) none ("t") 3
    (some ("")) (Or.inr rfl)

/-! ### WAL recovery characterization (claim C3 machinery) -/

theorem find_filter_ne (k k' : Int) (h : k ≠ k') (m : List (Int × OrderRec)) :
    (m.filter (fun p => p.1 ≠ k')).find? (fun p => p.1 == k) =
      m.find? (fun p => p.1 == k) := by
  induction m with
  | nil => rfl
  | cons q qs ih =>
    by_cases hq : q.1 = k'
    · have hfil : (decide (q.1 ≠ k')) = false := by simp [hq]
      have hqk : ¬ ((fun p : Int × OrderRec => p.1 == k) q = true) := by
        simp [hq]
        omega
      rw [List.filter_cons, hfil, if_neg (by simp),
        @List.find?_cons_of_neg _ (fun p => p.1 == k) q qs hqk]
      exact ih
    · have hfil : (decide (q.1 ≠ k')) = true := by simp [hq]
      rw [List.filter_cons, hfil, if_pos rfl]
      by_cases hqk : ((fun p : Int × OrderRec => p.1 == k) q = true)
      · rw [@List.find?_cons_of_pos _ (fun p => p.1 == k) q _ hqk,
          @List.find?_cons_of_pos _ (fun p => p.1 == k) q qs hqk]
      · rw [@List.find?_cons_of_neg _ (fun p => p.1 == k) q _ hqk,
          @List.find?_cons_of_neg _ (fun p => p.1 == k) q qs hqk]
        exact ih

theorem assocLookup_insert_ne {k k' : Int} (v : OrderRec)
    (m : List (Int × OrderRec)) (h : k ≠ k') :
    assocLookup k (assocInsert k' v m) = assocLookup k m := by
  have hne : ¬ ((fun p : Int × OrderRec => p.1 == k) (k', v) = true) := by
    simp
    omega
  show (((k', v) :: m.filter (fun p => p.1 ≠ k')).find?
      (fun p => p.1 == k)).map Prod.snd =
    (m.find? (fun p => p.1 == k)).map Prod.snd
  rw [@List.find?_cons_of_neg _ (fun p => p.1 == k) (k', v) _ hne,
    find_filter_ne k k' h m]

/-- One recovery line keeps any key bound to a record with that key's seq. -/
theorem recoverLine_lookup_stable (s : NodeState) (l : Option OrderRec) (k : Int)
    (h : ∃ r', assocLookup k s.history = some r' ∧ r'.seq = k) :
    ∃ r'', assocLookup k (recoverLine s l).history = some r'' ∧ r''.seq = k := by
  cases l with
  | none => exact h
  | some r =>
    by_cases hr : 0 < r.seq
    · have hh : (recoverLine s (some r)).history = assocInsert r.seq r s.history := by
        simp [recoverLine, hr]
      rw [hh]
      by_cases hk : k = r.seq
      · rw [hk]
        exact ⟨r, assocLookup_insert r.seq r s.history, rfl⟩
      · rw [assocLookup_insert_ne r s.history hk]
        exact h
    · have hh : recoverLine s (some r) = s := by
        simp [recoverLine, hr]
      rw [hh]
      exact h

theorem recoverLine_foldl_lookup_stable (lines : List (Option OrderRec)) :
    ∀ (s : NodeState) (k : Int),
    (∃ r', assocLookup k s.history = some r' ∧ r'.seq = k) →
    ∃ r'', assocLookup k (lines.foldl recoverLine s).history = some r'' ∧
      r''.seq = k := by
  induction lines with
  | nil =>
    intro s k h
    exact h
  | cons l ls ih =>
    intro s k h
    simp only [List.foldl_cons]
    exact ih (recoverLine s l) k (recoverLine_lookup_stable s l k h)

theorem recoverLine_seen_mono (s : NodeState) (l : Option OrderRec) :
    s.seen_order_uuids ⊆ (recoverLine s l).seen_order_uuids := by
  cases l with
  | none => exact Finset.Subset.refl _
  | some r =>
    by_cases hr : 0 < r.seq
    · have hh : (recoverLine s (some r)).seen_order_uuids =
          (if r.order_uuid ≠ "" then insert r.order_uuid s.seen_order_uuids
           else s.seen_order_uuids) := by
        simp [recoverLine, hr]
      rw [hh]
      split_ifs
      · exact Finset.subset_insert _ _
      · exact Finset.Subset.refl _
    · have hh : recoverLine s (some r) = s := by
        simp [recoverLine, hr]
      rw [hh]

theorem recoverLine_foldl_seen_mono (lines : List (Option OrderRec)) :
    ∀ s : NodeState,
    s.seen_order_uuids ⊆ (lines.foldl recoverLine s).seen_order_uuids := by
  induction lines with
  | nil =>
    intro s
    exact Finset.Subset.refl _
  | cons l ls ih =>
    intro s
    simp only [List.foldl_cons]
    exact Finset.Subset.trans (recoverLine_seen_mono s l) (ih (recoverLine s l))

/-- Every WAL record with positive seq processed by the fold ends up looked
up in history under its own seq, its non-empty uuid in the seen-set, and its
seq below the fold's final `last_seq`. -/
theorem recoverLine_foldl_records (lines : List (Option OrderRec)) :
    ∀ (s : NodeState) (r : OrderRec), some r ∈ lines → 0 < r.seq →
    (∃ r', assocLookup r.seq (lines.foldl recoverLine s).history = some r' ∧
      r'.seq = r.seq) ∧
    (r.order_uuid ≠ "" →
      r.order_uuid ∈ (lines.foldl recoverLine s).seen_order_uuids) ∧
    r.seq ≤ (lines.foldl recoverLine s).last_seq := by
  induction lines with
  | nil =>
    intro s r hmem
    simp at hmem
  | cons l ls ih =>
    intro s r hmem hr
    simp only [List.foldl_cons]
    rcases List.mem_cons.mp hmem with hhead | htail
    · subst hhead
      have hh : (recoverLine s (some r)).history = assocInsert r.seq r s.history := by
        simp [recoverLine, hr]
      have hseen : (recoverLine s (some r)).seen_order_uuids =
          (if r.order_uuid ≠ "" then insert r.order_uuid s.seen_order_uuids
           else s.seen_order_uuids) := by
        simp [recoverLine, hr]
      have hlast : (recoverLine s (some r)).last_seq = max s.last_seq r.seq := by
        simp [recoverLine, hr]
      refine ⟨?_, ?_, ?_⟩
      · refine recoverLine_foldl_lookup_stable ls (recoverLine s (some r)) r.seq ?_
        rw [hh]
        exact ⟨r, assocLookup_insert r.seq r s.history, rfl⟩
      · intro hu
        refine recoverLine_foldl_seen_mono ls (recoverLine s (some r)) ?_
        rw [hseen]
        rw [if_pos hu]
        exact Finset.mem_insert_self _ _
      · have hmono := (recoverLine_foldl_facts ls (recoverLine s (some r))).1
        rw [hlast] at hmono
        omega
    · exact ih (recoverLine s l) r htail hr

/-- The fold's final `last_seq` is either the start value or some positive
recovered seq from the file. -/
theorem recoverLine_foldl_last_attained (lines : List (Option OrderRec)) :
    ∀ s : NodeState,
    (lines.foldl recoverLine s).last_seq = s.last_seq ∨
    ∃ r : OrderRec, some r ∈ lines ∧ 0 < r.seq ∧
      (lines.foldl recoverLine s).last_seq = r.seq := by
  induction lines with
  | nil =>
    intro s
    exact Or.inl rfl
  | cons l ls ih =>
    intro s
    simp only [List.foldl_cons]
    rcases ih (recoverLine s l) with hsame | ⟨r, hmem, hrpos, hval⟩
    · cases l with
      | none =>
        left
        rw [hsame]
        rfl
      | some r =>
        by_cases hr : 0 < r.seq
        · have hlast : (recoverLine s (some r)).last_seq = max s.last_seq r.seq := by
            simp [recoverLine, hr]
          rw [hlast] at hsame
          rcases max_cases s.last_seq r.seq with ⟨hm, _⟩ | ⟨hm, _⟩
          · left
            rw [hsame, hm]
          · right
            exact ⟨r, List.mem_cons_self _ _, hr, by rw [hsame, hm]⟩
        · have hh : recoverLine s (some r) = s := by
            simp [recoverLine, hr]
          rw [hh] at hsame
          rw [hh]
          exact Or.inl hsame
    · exact Or.inr ⟨r, List.mem_cons_of_mem l hmem, hrpos, hval⟩

/-- C3: for every WAL file content, `_recover_from_wal` on a fresh node (i)
binds every valid record's seq in history, (ii) bounds `last_seq` above every
recovered seq and (iii) attains it at one of them (or 0 for an empty file),
(iv) adds every valid record's non-empty uuid to `seen_order_uuids`, (v) sets
`expected_seq = last_seq + 1`, and (vi) fills `delivered_seqs` with exactly
`[1, expected_seq)`.  Consequently (vii) a node restarting over a WAL holding
exactly the contiguous prefix of seqs `1..k` resumes with
`expected_seq = k + 1` (its pre-restart value) and re-receiving an ORDER for
any recovered seq delivers nothing. -/
theorem claimC3_wal_recovery (node_id : Int) (role : Role)
    (lines : List (Option OrderRec)) :
    (∀ r : OrderRec, some r ∈ lines → 0 < r.seq →
      ∃ r', assocLookup r.seq
          (recover_from_wal (initState node_id role) lines).history = some r' ∧
        r'.seq = r.seq) ∧
    (∀ r : OrderRec, some r ∈ lines → 0 < r.seq →
      r.seq ≤ (recover_from_wal (initState node_id role) lines).last_seq) ∧
    ((recover_from_wal (initState node_id role) lines).last_seq = 0 ∨
      ∃ r : OrderRec, some r ∈ lines ∧ 0 < r.seq ∧
        (recover_from_wal (initState node_id role) lines).last_seq = r.seq) ∧
    (∀ r : OrderRec, some r ∈ lines → 0 < r.seq → r.order_uuid ≠ "" →
      r.order_uuid ∈
        (recover_from_wal (initState node_id role) lines).seen_order_uuids) ∧
    (recover_from_wal (initState node_id role) lines).expected_seq =
      (recover_from_wal (initState node_id role) lines).last_seq + 1 ∧
    (recover_from_wal (initState node_id role) lines).delivered_seqs =
      Finset.Ico 1 (recover_from_wal (initState node_id role) lines).expected_seq ∧
    ((∀ i : Nat, ∀ hi : i < lines.length,
        ∃ r : OrderRec, lines.get ⟨i, hi⟩ = some r ∧ r.seq = (i : Int) + 1) →
      (recover_from_wal (initState node_id role) lines).expected_seq =
        (lines.length : Int) + 1 ∧
      (∀ m : OrderRec, 1 ≤ m.seq → m.seq ≤ (lines.length : Int) →
        (process_order (recover_from_wal (initState node_id role) lines)
          (some m)).2 = [])) := by
  have hhist : (recover_from_wal (initState node_id role) lines).history =
      (lines.foldl recoverLine (initState node_id role)).history := rfl
  have hseen : (recover_from_wal (initState node_id role) lines).seen_order_uuids =
      (lines.foldl recoverLine (initState node_id role)).seen_order_uuids := rfl
  have hlast : (recover_from_wal (initState node_id role) lines).last_seq =
      (lines.foldl recoverLine (initState node_id role)).last_seq := rfl
  have hexp : (recover_from_wal (initState node_id role) lines).expected_seq =
      (lines.foldl recoverLine (initState node_id role)).last_seq + 1 := rfl
  obtain ⟨f1, f2, f3, f4, f5, f6, f7, f8, f9⟩ :=
    recoverLine_foldl_facts lines (initState node_id role)
  have hzero : (0 : Int) ≤ (lines.foldl recoverLine (initState node_id role)).last_seq := f1
  have hb1 : ∀ r : OrderRec, some r ∈ lines → 0 < r.seq →
      r.seq ≤ (recover_from_wal (initState node_id role) lines).last_seq := by
    intro r hmem hr
    rw [hlast]
    exact (recoverLine_foldl_records lines (initState node_id role) r hmem hr).2.2
  refine ⟨?_, hb1, ?_, ?_, ?_, ?_, ?_⟩
  · intro r hmem hr
    rw [hhist]
    exact (recoverLine_foldl_records lines (initState node_id role) r hmem hr).1
  · rw [hlast]
    exact recoverLine_foldl_last_attained lines (initState node_id role)
  · intro r hmem hr hu
    rw [hseen]
    exact (recoverLine_foldl_records lines (initState node_id role) r hmem hr).2.1 hu
  · rw [hexp, hlast]
  · show (lines.foldl recoverLine (initState node_id role)).delivered_seqs ∪
      Finset.Ico 1 ((lines.foldl recoverLine (initState node_id role)).last_seq + 1) =
      Finset.Ico 1 (recover_from_wal (initState node_id role) lines).expected_seq
    rw [f4, hexp]
    show (∅ : Finset Int) ∪ _ = _
    rw [Finset.empty_union]
  · intro hk
    have hup : (recover_from_wal (initState node_id role) lines).last_seq ≤
        (lines.length : Int) := by
      rcases recoverLine_foldl_last_attained lines (initState node_id role)
        with hl | ⟨r, hmem, hrpos, hval⟩
      · rw [hlast, hl]
        show (0:Int) ≤ _
        positivity
      · obtain ⟨n, hn⟩ := List.get_of_mem hmem
        obtain ⟨r2, hr2, hr2seq⟩ := hk n.1 n.2
        have hr2' : lines.get n = some r2 := hr2
        rw [hn] at hr2'
        injection hr2' with hrr
        subst hrr
        rw [hlast, hval, hr2seq]
        have : (n.1 : Int) < (lines.length : Int) := by
          exact_mod_cast n.2
        omega
    have hlo : (lines.length : Int) ≤
        (recover_from_wal (initState node_id role) lines).last_seq := by
      cases hlen : lines.length with
      | zero =>
        rw [hlast]
        simpa [hlen] using hzero
      | succ n =>
        have hn : n < lines.length := by omega
        obtain ⟨r, hr, hrseq⟩ := hk n hn
        have hmem : some r ∈ lines := by
          rw [← hr]
          exact lines.get_mem n hn
        have hrpos : 0 < r.seq := by
          rw [hrseq]
          positivity
        have := hb1 r hmem hrpos
        rw [hrseq] at this
        push_cast
        omega
    have hlen_eq : (recover_from_wal (initState node_id role) lines).last_seq =
        (lines.length : Int) := le_antisymm hup hlo
    have hexp_len : (recover_from_wal (initState node_id role) lines).expected_seq =
        (lines.length : Int) + 1 := by
      rw [hexp, ← hlast, hlen_eq]
    refine ⟨hexp_len, ?_⟩
    intro m hm1 hm2
    have h0 : ¬ m.seq ≤ 0 := by omega
    have hdup : m.seq ∈
        (orderRecord (recover_from_wal (initState node_id role) lines) m).delivered_seqs ∨
        m.seq <
        (orderRecord (recover_from_wal (initState node_id role) lines) m).expected_seq := by
      right
      show m.seq < (recover_from_wal (initState node_id role) lines).expected_seq
      rw [hexp_len]
      omega
    have heq : process_order (recover_from_wal (initState node_id role) lines)
        (some m) =
        (dedupMark (orderRecord (recover_from_wal (initState node_id role) lines) m) m,
          []) := by
      simp [process_order, h0, hdup]
    rw [heq]

/-- A two-record WAL file used as the concrete recovery scenario. -/
def walRecA : OrderRec :=
  { leader_id := 10, epoch := 1, seq := 1, order_uuid := "a",
    payload := "x", sender_id := none }

def walRecB : OrderRec :=
  { leader_id := 10, epoch := 1, seq := 2, order_uuid := "b",
    payload := "y", sender_id := none }

def walLinesW : List (Option OrderRec) := [some walRecA, some walRecB]

/-- Witness for C3: recovering a WAL holding seqs 1 and 2 resumes at
`expected_seq = 3`, both records are in history, the uuid is seen, and
re-receiving seq 1 delivers nothing. -/
theorem claimC3_wal_recovery_witness :
    (recover_from_wal (initState 7 Role.follower) walLinesW).expected_seq =
      ((walLinesW.length : Int) + 1) ∧
    (∃ r', assocLookup walRecB.seq
        (recover_from_wal (initState 7 Role.follower) walLinesW).history = some r' ∧
      r'.seq = walRecB.seq) ∧
    walRecA.order_uuid ∈
      (recover_from_wal (initState 7 Role.follower) walLinesW).seen_order_uuids ∧
    (process_order (recover_from_wal (initState 7 Role.follower) walLinesW)
      (some walRecA)).2 = [] := by
  obtain ⟨c1, c2, c3, c4, c5, c6, c7⟩ := claimC3_wal_recovery 7 Role.follower walLinesW
  have hk : ∀ i : Nat, ∀ hi : i < walLinesW.length,
      ∃ r : OrderRec, walLinesW.get ⟨i, hi⟩ = some r ∧ r.seq = (i : Int) + 1 := by
    intro i hi
    have hi2 : i < 2 := hi
    interval_cases i
    · exact ⟨walRecA, rfl, by decide⟩
    · exact ⟨walRecB, rfl, by decide⟩
  obtain ⟨h7a, h7b⟩ := c7 hk
  refine ⟨h7a, ?_, ?_, ?_⟩
  · exact c1 walRecB (by simp [walLinesW]) (by decide)
  · exact c4 walRecA (by simp [walLinesW]) (by decide) (by decide)
  · exact h7b walRecA (by decide) (by decide)

/-! ### WAL append discipline (claim C4 machinery) -/

def isNewOrder : Event → Bool
  | Event.newOrder _ _ _ => true
  | _ => false

theorem step_wal (s : NodeState) (ev : Event) (h : Inv s)
    (hev : isNewOrder ev = false) :
    (step s ev).1.wal = s.wal ++ (step s ev).2 := by
  cases ev with
  | order msg => exact (process_order_spec s msg h).2.2.2.1
  | newOrder sid uf p => simp [isNewOrder] at hev
  | recover lines =>
    show (recover_from_wal s lines).wal = s.wal ++ []
    rw [(recover_from_wal_spec s lines h).2.2.2, List.append_nil]
  | promote e =>
    show (promote_to_leader s e).wal = s.wal ++ []
    rw [(promote_to_leader_spec s e h).2.2.2, List.append_nil]
  | demote nl =>
    show (demote_to_follower s nl).wal = s.wal ++ []
    rw [(demote_sameDelivery s nl).2.2.2.2.1, List.append_nil]
  | iAmLeader ip lid ltcp e ls =>
    show (handle_i_am_leader s ip lid ltcp e ls).wal = s.wal ++ []
    rw [(handle_i_am_leader_sameDelivery s ip lid ltcp e ls).2.2.2.2.1,
      List.append_nil]
  | leaderAlive ip lid e ls ltcp =>
    show (handle_leader_alive s ip lid e ls ltcp).wal = s.wal ++ []
    rw [(handle_leader_alive_sameDelivery s ip lid e ls ltcp).2.2.2.2.1,
      List.append_nil]
  | coordinator ip lid e ltcp ls =>
    show (handle_coordinator s ip lid e ltcp ls).wal = s.wal ++ []
    rw [(handle_coordinator_sameDelivery s ip lid e ltcp ls).2.2.2.2.1,
      List.append_nil]
  | electionAdopt lid lip ltcp e ls =>
    show (election_adopt_coordinator s lid lip ltcp e ls).wal = s.wal ++ []
    rw [(election_adopt_sameDelivery s lid lip ltcp e ls).2.2.2.2.1,
      List.append_nil]

theorem runFrom_wal (evs : List Event) :
    ∀ (s : NodeState) (log : List OrderRec), Inv s → s.wal = log →
    (∀ ev ∈ evs, isNewOrder ev = false) →
    (runFrom (s, log) evs).1.wal = (runFrom (s, log) evs).2 := by
  induction evs with
  | nil =>
    intro s log _ hw _
    exact hw
  | cons ev evs ih =>
    intro s log h hw hno
    have heq : runFrom (s, log) (ev :: evs) =
        runFrom ((step s ev).1, log ++ (step s ev).2) evs := rfl
    rw [heq]
    have hev := hno ev (List.mem_cons_self _ _)
    have hstep := step_wal s ev h hev
    refine ih (step s ev).1 (log ++ (step s ev).2) (step_spec s ev h).1 ?_ ?_
    · rw [hstep, hw]
    · intro e he
      exact hno e (List.mem_cons_of_mem ev he)

/-- C4 counterexample: a fresh leader accepting a single NEW_ORDER appends
the order's record to the WAL twice (once on receipt at node.py line 817,
once on delivery at line 532) while delivering it exactly once — so the WAL
does not contain exactly one line per delivered sequence number, and the
leader-accepted order is not appended exactly once. -/
theorem claimC4_counterexample :
    ((handle_new_order (initState 10 Role.leader) (some 2)
        (some ("u1")) "espresso").1.wal.map OrderRec.seq = [1, 1]) ∧
    ((handle_new_order (initState 10 Role.leader) (some 2)
        (some ("u1")) "espresso").2.1.map OrderRec.seq = [1]) := by
  decide

/-- C4 (amended): `_process_order` appends to the WAL exactly the records it
delivers, in delivery order, so over any execution without leader NEW_ORDER
handling the WAL equals the delivery log — one line per delivered seq, in
order.  The leader's NEW_ORDER handler additionally appends the accepted
record once on receipt, before processing, so a leader-accepted order appears
in the WAL once from the receipt append plus once per delivery. -/
theorem claimC4_wal_on_delivery (node_id : Int) (role : Role) (evs : List Event)
    (s : NodeState) (sid : Option Int) (uf : Option String) (p : String)
    (hno : ∀ ev ∈ evs, isNewOrder ev = false)
    (hs : Inv s)
    (hacc : ¬ (uf.getD ("") ≠ "" ∧ uf.getD ("") ∈ s.seen_order_uuids)) :
    (runTrace node_id role evs).1.wal = (runTrace node_id role evs).2 ∧
    (handle_new_order s sid uf p).1.wal =
      s.wal ++ newOrderMsg (acceptState s (uf.getD (""))) sid (uf.getD ("")) p ::
        (handle_new_order s sid uf p).2.1 := by
  constructor
  · exact runFrom_wal evs (initState node_id role) []
      (initState_Inv node_id role) rfl hno
  · obtain ⟨a1, a2, a3, a4, a5, a6, a7, a8⟩ := acceptState_facts s (uf.getD (""))
    set s0 := acceptState s (uf.getD ("")) with hs0
    set om := newOrderMsg s0 sid (uf.getD ("")) p with hom
    have heq : handle_new_order s sid uf p =
        ((process_order (preBroadcastState s0 om) (some om)).1,
          (process_order (preBroadcastState s0 om) (some om)).2,
          some om.seq) := by
      simp only [handle_new_order]
      rw [if_neg hacc]
    have hp_wal : (preBroadcastState s0 om).wal = s.wal ++ [om] := by
      show s0.wal ++ [om] = s.wal ++ [om]
      rw [a6]
    have hpinv : Inv (preBroadcastState s0 om) := by
      obtain ⟨hdel, hone, hle, hbuf⟩ := hs
      refine ⟨?_, ?_, ?_, ?_⟩
      · show s0.delivered_seqs = Finset.Ico 1 s0.expected_seq
        rw [a3, a4, hdel]
      · show (1:Int) ≤ s0.expected_seq
        rw [a3]
        exact hone
      · show s0.expected_seq ≤ om.seq + 1
        have : om.seq = max s0.last_seq (maxKeysDefault0 s0.history) + 1 := rfl
        rw [a3, this, a1]
        omega
      · intro q hq
        have hq' : q ∈ s.buffer := by
          rw [← a5]
          exact hq
        have := hbuf q hq'
        show q.2.seq = q.1 ∧ q.1 ≤ om.seq
        have hom2 : om.seq = max s0.last_seq (maxKeysDefault0 s0.history) + 1 := rfl
        rw [hom2, a1]
        omega
    have hwal := (process_order_spec (preBroadcastState s0 om) (some om) hpinv).2.2.2.1
    rw [heq]
    show (process_order (preBroadcastState s0 om) (some om)).1.wal =
      s.wal ++ om :: (process_order (preBroadcastState s0 om) (some om)).2
    rw [hwal, hp_wal]
    simp

/-- Witness for C4's amended statement: a one-ORDER follower trace and a
concrete accepted NEW_ORDER on a fresh leader. -/
theorem claimC4_wal_on_delivery_witness :
    (runTrace 3 Role.follower [Event.order (some walRecA)]).1.wal =
      (runTrace 3 Role.follower [Event.order (some walRecA)]).2 ∧
    (handle_new_order (initState 10 Role.leader) (some 2)
        (some ("u1")) "espresso").1.wal =
      (initState 10 Role.leader).wal ++
        newOrderMsg (acceptState (initState 10 Role.leader)
            ((some ("u1")).getD (""))) (some 2) ((some ("u1")).getD ("")) "espresso" ::
          (handle_new_order (initState 10 Role.leader) (some 2)
            (some ("u1")) "espresso").2.1 :=
  claimC4_wal_on_delivery 3 Role.follower [Event.order (some walRecA)]
    (initState 10 Role.leader) (some 2) (some ("u1")) "espresso"
    (by
      intro ev hev
      rw [List.mem_singleton] at hev
      subst hev
      rfl)
    (initState_Inv 10 Role.leader)
    (by simp [initState])

/-! ### Wire codec (claim C6 machinery)

`proto.encode` is `json.dumps(msg, separators=(",", ":"), ensure_ascii=False)`
and `proto.decode` is `json.loads(data.decode("utf-8", errors="replace"))`.
The byte-level utf-8 decode with `errors="replace"` is total and elided: the
model works on the decoded text.  `json.loads` raising a parse error is
modelled as `Except.error`. -/

inductive Json where
  | jnull : Json
  | jbool (b : Bool) : Json
  | jint (n : Int) : Json
  | jfloat (raw : String) : Json
  | jstr (s : String) : Json
  | jarr (xs : List Json) : Json
  | jobj (kvs : List (String × Json)) : Json

def lbraceChar : Char := Char.ofNat 123

def rbraceChar : Char := Char.ofNat 125

def isWs (c : Char) : Bool := c = ' ' ∨ c = '\t' ∨ c = '\n' ∨ c = '\r'

def skipWs : List Char → List Char
  | [] => []
  | c :: cs => if isWs c then skipWs cs else c :: cs

def takeDigits : List Char → List Char × List Char
  | [] => ([], [])
  | c :: cs =>
    if c.isDigit then
      let r := takeDigits cs
      (c :: r.1, r.2)
    else ([], c :: cs)

def digitsVal (ds : List Char) : Nat :=
  ds.foldl (fun a c => a * 10 + (c.toNat - 48)) 0

def numRaw (neg : Bool) (ds : List Char) (frac : Option (List Char)) :
    List Char :=
  (if neg then ['-'] else []) ++ ds ++
    (match frac with | some fs => '.' :: fs | none => [])

def mkMantissa (neg : Bool) (ds : List Char) (frac : Option (List Char))
    (rest : List Char) : Except String (Json × List Char) :=
  match frac with
  | none =>
    let v : Int := Int.ofNat (digitsVal ds)
    Except.ok (Json.jint (if neg then -v else v), rest)
  | some _ => Except.ok (Json.jfloat (String.mk (numRaw neg ds frac)), rest)

def parseExpTail (neg : Bool) (ds : List Char) (frac : Option (List Char)) :
    List Char → Except String (Json × List Char)
  | c :: rest =>
    if c = 'e' ∨ c = 'E' then
      let sr : List Char × List Char :=
        match rest with
        | '+' :: r => (['+'], r)
        | '-' :: r => (['-'], r)
        | _ => ([], rest)
      match takeDigits sr.2 with
      | ([], _) => Except.error ("invalid number")
      | (es, rest2) =>
        Except.ok (Json.jfloat
          (String.mk (numRaw neg ds frac ++ 'e' :: sr.1 ++ es)), rest2)
    else mkMantissa neg ds frac (c :: rest)
  | [] => mkMantissa neg ds frac []

def parseNumber (cs : List Char) : Except String (Json × List Char) :=
  let p : Bool × List Char :=
    match cs with
    | '-' :: rest => (true, rest)
    | _ => (false, cs)
  match takeDigits p.2 with
  | ([], _) => Except.error ("invalid number")
  | (ds, rest) =>
    if 1 < ds.length ∧ ds.head? = some '0' then Except.error ("invalid number")
    else
      match rest with
      | '.' :: rest2 =>
        match takeDigits rest2 with
        | ([], _) => Except.error ("invalid number")
        | (fs, rest3) => parseExpTail p.1 ds (some fs) rest3
      | _ => parseExpTail p.1 ds none rest

def escDecode (e : Char) : Option Char :=
  if e = '"' then some '"'
  else if e = '\\' then some '\\'
  else if e = '/' then some '/'
  else if e = 'b' then some (Char.ofNat 8)
  else if e = 'f' then some (Char.ofNat 12)
  else if e = 'n' then some '\n'
  else if e = 'r' then some '\r'
  else if e = 't' then some '\t'
  else none

def isHexDigitChar (c : Char) : Bool :=
  c.isDigit ∨ ('a' ≤ c ∧ c ≤ 'f') ∨ ('A' ≤ c ∧ c ≤ 'F')

def hexVal (c : Char) : Nat :=
  if c.isDigit then c.toNat - 48
  else if 'a' ≤ c ∧ c ≤ 'f' then c.toNat - 87
  else c.toNat - 55

def parseStringBody : Nat → List Char → Except String (String × List Char)
  | 0, _ => Except.error ("fuel exhausted")
  | Nat.succ _, [] => Except.error ("unterminated string")
  | Nat.succ fuel, c :: cs =>
    if c = '"' then Except.ok ("", cs)
    else if c = '\\' then
      match cs with
      | [] => Except.error ("bad escape")
      | e :: cs2 =>
        if e = 'u' then
          match cs2 with
          | h1 :: h2 :: h3 :: h4 :: cs3 =>
            if isHexDigitChar h1 ∧ isHexDigitChar h2 ∧ isHexDigitChar h3 ∧ isHexDigitChar h4 then
              match parseStringBody fuel cs3 with
              | Except.ok (rest, rem) =>
                Except.ok (String.mk
                  [Char.ofNat (((hexVal h1 * 16 + hexVal h2) * 16 +
                    hexVal h3) * 16 + hexVal h4)] ++ rest, rem)
              | Except.error msg => Except.error msg
            else Except.error ("bad unicode escape")
          | _ => Except.error ("bad unicode escape")
        else
          match escDecode e with
          | some d =>
            match parseStringBody fuel cs2 with
            | Except.ok (rest, rem) => Except.ok (String.mk [d] ++ rest, rem)
            | Except.error msg => Except.error msg
          | none => Except.error ("bad escape")
    else
      match parseStringBody fuel cs with
      | Except.ok (rest, rem) => Except.ok (String.mk [c] ++ rest, rem)
      | Except.error msg => Except.error msg

mutual

def parseValue : Nat → List Char → Except String (Json × List Char)
  | 0, _ => Except.error ("fuel exhausted")
  | Nat.succ fuel, cs =>
    match skipWs cs with
    | [] => Except.error ("expecting value")
    | c :: rest =>
      if c = lbraceChar then
        match skipWs rest with
        | c2 :: rest2 =>
          if c2 = rbraceChar then Except.ok (Json.jobj [], rest2)
          else
            match parseMembers fuel (c2 :: rest2) with
            | Except.ok (kvs, rem) => Except.ok (Json.jobj kvs, rem)
            | Except.error e => Except.error e
        | [] => Except.error ("unterminated object")
      else if c = '[' then
        match skipWs rest with
        | c2 :: rest2 =>
          if c2 = ']' then Except.ok (Json.jarr [], rest2)
          else
            match parseItems fuel (c2 :: rest2) with
            | Except.ok (xs, rem) => Except.ok (Json.jarr xs, rem)
            | Except.error e => Except.error e
        | [] => Except.error ("unterminated array")
      else if c = '"' then
        match parseStringBody fuel rest with
        | Except.ok (s, rem) => Except.ok (Json.jstr s, rem)
        | Except.error e => Except.error e
      else if c = 't' then
        match rest with
        | 'r' :: 'u' :: 'e' :: rem => Except.ok (Json.jbool true, rem)
        | _ => Except.error ("invalid literal")
      else if c = 'f' then
        match rest with
        | 'a' :: 'l' :: 's' :: 'e' :: rem => Except.ok (Json.jbool false, rem)
        | _ => Except.error ("invalid literal")
      else if c = 'n' then
        match rest with
        | 'u' :: 'l' :: 'l' :: rem => Except.ok (Json.jnull, rem)
        | _ => Except.error ("invalid literal")
      else if c = '-' ∨ c.isDigit then parseNumber (c :: rest)
      else Except.error ("unexpected character")

def parseMembers : Nat → List Char →
    Except String (List (String × Json) × List Char)
  | 0, _ => Except.error ("fuel exhausted")
  | Nat.succ fuel, cs =>
    match skipWs cs with
    | '"' :: rest =>
      match parseStringBody fuel rest with
      | Except.ok (key, rem) =>
        match skipWs rem with
        | ':' :: rem2 =>
          match parseValue fuel rem2 with
          | Except.ok (v, rem3) =>
            match skipWs rem3 with
            | ',' :: rem4 =>
              match parseMembers fuel rem4 with
              | Except.ok (kvs, rem5) => Except.ok ((key, v) :: kvs, rem5)
              | Except.error e => Except.error e
            | c :: rem4 =>
              if c = rbraceChar then Except.ok ([(key, v)], rem4)
              else Except.error ("expecting comma or end of object")
            | [] => Except.error ("unterminated object")
          | Except.error e => Except.error e
        | _ => Except.error ("expecting colon")
      | Except.error e => Except.error e
    | _ => Except.error ("expecting property name")

def parseItems : Nat → List Char → Except String (List Json × List Char)
  | 0, _ => Except.error ("fuel exhausted")
  | Nat.succ fuel, cs =>
    match parseValue fuel cs with
    | Except.ok (v, rem) =>
      match skipWs rem with
      | ',' :: rem2 =>
        match parseItems fuel rem2 with
        | Except.ok (xs, rem3) => Except.ok (v :: xs, rem3)
        | Except.error e => Except.error e
      | ']' :: rem2 => Except.ok ([v], rem2)
      | _ => Except.error ("expecting comma or end of array")
    | Except.error e => Except.error e

end

/-- `json.loads`: parse exactly one JSON value with only surrounding
whitespace; anything else raises (modelled as `Except.error`). -/
def jsonLoads (s : String) : Except String Json :=
  match parseValue (s.length + 1) s.toList with
  | Except.error e => Except.error e
  | Except.ok (v, rest) =>
    match skipWs rest with
    | [] => Except.ok v
    | _ => Except.error ("extra data")

/-- `proto.decode` (proto.py lines 7-8). -/
def decode (s : String) : Except String Json := jsonLoads s

def hexDigitChar (n : Nat) : Char :=
  if n < 10 then Char.ofNat (48 + n) else Char.ofNat (87 + n)

def escapeChar (c : Char) : List Char :=
  if c = '"' then ['\\', '"']
  else if c = '\\' then ['\\', '\\']
  else if c = '\n' then ['\\', 'n']
  else if c = '\t' then ['\\', 't']
  else if c = '\r' then ['\\', 'r']
  else if c.toNat = 8 then ['\\', 'b']
  else if c.toNat = 12 then ['\\', 'f']
  else if c.toNat < 32 then
    ['\\', 'u', '0', '0', hexDigitChar (c.toNat / 16), hexDigitChar (c.toNat % 16)]
  else [c]

def escapeString (s : String) : String :=
  String.mk (s.toList.foldr (fun c acc => escapeChar c ++ acc) [])

mutual

def encodeJson : Json → String
  | Json.jnull => "null"
  | Json.jbool true => "true"
  | Json.jbool false => "false"
  | Json.jint n => toString n
  | Json.jfloat raw => raw
  | Json.jstr s => "\"" ++ escapeString s ++ "\""
  | Json.jarr xs => "[" ++ encodeItemsStr xs ++ "]"
  | Json.jobj kvs =>
    String.mk [lbraceChar] ++ encodeMembersStr kvs ++ String.mk [rbraceChar]

def encodeItemsStr : List Json → String
  | [] => ""
  | x :: [] => encodeJson x
  | x :: xs => encodeJson x ++ "," ++ encodeItemsStr xs

def encodeMembersStr : List (String × Json) → String
  | [] => ""
  | kv :: [] => "\"" ++ escapeString kv.1 ++ "\":" ++ encodeJson kv.2
  | kv :: kvs =>
    "\"" ++ escapeString kv.1 ++ "\":" ++ encodeJson kv.2 ++ "," ++
      encodeMembersStr kvs

end

/-- `proto.encode` (proto.py lines 4-5): `json.dumps` with separators
`(",", ":")` and `ensure_ascii=False`; total by construction. -/
def encode (msg : List (String × Json)) : String := encodeJson (Json.jobj msg)

/-- Python `bytes.strip()` on the decoded text: drop leading and trailing
whitespace. -/
def pyStrip (s : String) : String :=
  String.mk (List.reverse (skipWs (List.reverse (skipWs s.toList))))

/-- The per-line handling of `tcp_stream.read_json_lines`: each
newline-delimited segment is stripped, blank lines are skipped, `json.loads`
failures are caught (`except Exception: continue`), and successfully parsed
records are handed to `on_msg` in order. -/
def readJsonLines : List String → List Json
  | [] => []
  | line :: rest =>
    let l := pyStrip line
    if l = "" then readJsonLines rest
    else
      match jsonLoads l with
      | Except.ok v => v :: readJsonLines rest
      | Except.error _ => readJsonLines rest

theorem readJsonLines_append (xs ys : List String) :
    readJsonLines (xs ++ ys) = readJsonLines xs ++ readJsonLines ys := by
  induction xs with
  | nil => rfl
  | cons x xs ih =>
    show readJsonLines (x :: (xs ++ ys)) = readJsonLines (x :: xs) ++ readJsonLines ys
    simp only [readJsonLines]
    by_cases hx : pyStrip x = ""
    · rw [if_pos hx, if_pos hx, ih]
    · rw [if_neg hx, if_neg hx]
      cases jsonLoads (pyStrip x) with
      | ok v => simp [ih]
      | error e => simp [ih]

/-- C6 counterexample: `decode` on the malformed one-byte record (a lone
opening brace) raises `json.JSONDecodeError` to its caller — modelled as an
`Except.error` — refuting "decode never raises an exception to the caller". -/
theorem claimC6_counterexample : (decode ("\x7b")).toOption = none := rfl

/-- C6 (amended): `decode` does raise a parse error to its caller on
malformed input; the callers catch it (the TCP line reader's
`except Exception: continue`, the UDP listeners' `except` blocks), so a
malformed record is dropped silently and every well-formed record around it
is still parsed and delivered, in order.  (`encode` is total by
construction.) -/
theorem claimC6_malformed_record_dropped (pre post : List String) (bad : String)
    (hbad : (decode (pyStrip bad)).toOption = none) :
    readJsonLines (pre ++ bad :: post) =
      readJsonLines pre ++ readJsonLines post ∧
    (∀ (good : String) (v : Json), decode (pyStrip good) = Except.ok v →
      readJsonLines (pre ++ good :: post) =
        readJsonLines pre ++ v :: readJsonLines post) := by
  constructor
  · rw [readJsonLines_append]
    congr 1
    show readJsonLines (bad :: post) = readJsonLines post
    simp only [readJsonLines]
    by_cases hb : pyStrip bad = ""
    · rw [if_pos hb]
    · rw [if_neg hb]
      cases hj : jsonLoads (pyStrip bad) with
      | ok v =>
        exfalso
        have : (decode (pyStrip bad)).toOption = some v := by
          show (jsonLoads (pyStrip bad)).toOption = some v
          rw [hj]
          rfl
        rw [hbad] at this
        exact Option.noConfusion this
      | error e => rfl
  · intro good v hgood
    rw [readJsonLines_append]
    congr 1
    show readJsonLines (good :: post) = v :: readJsonLines post
    have hne : pyStrip good ≠ "" := by
      intro h0
      rw [h0] at hgood
      exact Except.noConfusion hgood
    simp only [readJsonLines]
    rw [if_neg hne]
    have hj : jsonLoads (pyStrip good) = Except.ok v := hgood
    rw [hj]

/-- Witness for C6's amended statement: a malformed lone-brace line between
two well-formed records is dropped while both neighbours are parsed. -/
theorem claimC6_malformed_record_dropped_witness :
    readJsonLines (["1"] ++ "\x7b" :: ["true"]) =
      readJsonLines ["1"] ++ readJsonLines ["true"] ∧
    readJsonLines (["1"] ++ "2" :: ["true"]) =
      readJsonLines ["1"] ++ Json.jint 2 :: readJsonLines ["true"] :=
  ⟨(claimC6_malformed_record_dropped ["1"] ["true"] "\x7b" rfl).1,
    (claimC6_malformed_record_dropped ["1"] ["true"] "\x7b" rfl).2 "2"
      (Json.jint 2) rfl⟩

/-! ### proto constructors and config constants (claims C7 and C9) -/

/-- `proto.leader_alive` (proto.py lines 25-26), exactly as the source file
defines it: three parameters, four fields.  (node.py line 859 calls it as
`leader_alive(self.node_id, self.epoch, self.last_seq, self.tcp_port,
cluster=cluster_list)` — an application this signature cannot accept.) -/
def leader_alive (leader_id epoch last_seq : Int) : List (String × Json) :=
  [("type", Json.jstr ("LEADER_ALIVE")),
   ("leader_id", Json.jint leader_id),
   ("epoch", Json.jint epoch),
   ("last_seq", Json.jint last_seq)]

/-- C7: the heartbeat record `proto.leader_alive` builds carries exactly the
fields type, leader_id, epoch and last_seq — it has no `leader_tcp_port` and
no `cluster` field, although the heartbeat loop passes them and the
receive-side handler reads them. -/
theorem claimC7_leader_alive_fields (leader_id epoch last_seq : Int) :
    (leader_alive leader_id epoch last_seq).map Prod.fst =
      ["type", "leader_id", "epoch", "last_seq"] ∧
    "leader_tcp_port" ∉ (leader_alive leader_id epoch last_seq).map Prod.fst ∧
    "cluster" ∉ (leader_alive leader_id epoch last_seq).map Prod.fst := by
  refine ⟨rfl, ?_, ?_⟩ <;> simp [leader_alive]

/-- The timing-constant bindings `config.py` actually defines (config.py
lines 8-14), with their exact values as rationals. -/
def configTimingDefs : List (String × ℚ) :=
  [("DISCOVERY_INTERVAL", 1),
   ("HEARTBEAT_INTERVAL", 1),
   ("LEADER_TIMEOUT", 7/2),
   ("ELECTION_ANSWER_TIMEOUT", 6/5),
   ("COORDINATOR_TIMEOUT", 3)]

/-- Every top-level name `config.py` binds (constants, helper functions and
loop temporaries included). -/
def configDefinedNames : List String :=
  ["DISCOVERY_PORT", "NODE_UDP_BASE", "DISCOVERY_TARGETS",
   "DISCOVERY_INTERVAL", "HEARTBEAT_INTERVAL", "LEADER_TIMEOUT",
   "ELECTION_ANSWER_TIMEOUT", "COORDINATOR_TIMEOUT", "CLUSTER_NODE_IDS",
   "LOG_PREFIX", "_os", "_socket", "_cafeds_default_ipv4",
   "_cafeds_broadcast24", "_ip", "targets", "seen", "x"]

/-- The names `node.py` imports from `.config` (node.py lines 10-23). -/
def nodeConfigImports : List String :=
  ["DISCOVERY_INTERVAL", "HEARTBEAT_INTERVAL", "LEADER_TIMEOUT", "LOG_PREFIX",
   "DISCOVERY_PORT", "NODE_UDP_BASE", "ELECTION_ANSWER_TIMEOUT",
   "COORDINATOR_TIMEOUT", "WAL_ENABLED", "WAL_FILE", "HEARTBEAT_REDUNDANCY",
   "PEER_EXPIRY"]

/-- C9: of the seven required timing defaults, `config.py` defines exactly
five — with the claimed values — and does not define `PEER_EXPIRY` or
`HEARTBEAT_REDUNDANCY` at all, although `node.py` imports both (so importing
`cafeds.node` raises `ImportError`). -/
theorem claimC9_config_timing_constants :
    configTimingDefs.lookup "DISCOVERY_INTERVAL" = some 1 ∧
    configTimingDefs.lookup "HEARTBEAT_INTERVAL" = some 1 ∧
    configTimingDefs.lookup "LEADER_TIMEOUT" = some (7/2) ∧
    configTimingDefs.lookup "ELECTION_ANSWER_TIMEOUT" = some (6/5) ∧
    configTimingDefs.lookup "COORDINATOR_TIMEOUT" = some 3 ∧
    ("PEER_EXPIRY" ∈ nodeConfigImports ∧ "PEER_EXPIRY" ∉ configDefinedNames) ∧
    ("HEARTBEAT_REDUNDANCY" ∈ nodeConfigImports ∧
      "HEARTBEAT_REDUNDANCY" ∉ configDefinedNames) ∧
    ("WAL_ENABLED" ∈ nodeConfigImports ∧ "WAL_ENABLED" ∉ configDefinedNames) ∧
    ("WAL_FILE" ∈ nodeConfigImports ∧ "WAL_FILE" ∉ configDefinedNames) := by
  refine ⟨rfl, rfl, rfl, rfl, rfl, ⟨?_, ?_⟩, ⟨?_, ?_⟩, ⟨?_, ?_⟩, ⟨?_, ?_⟩⟩ <;> decide

/-! ### Startup ID-availability probe (claim C8) -/

/-- A decoded UDP datagram as `_check_id_available` reads it: the `.get`
fields it inspects, each possibly missing; `none` for a datagram `decode`
rejects (caught by `except ... continue`). -/
structure UdpMsg where
  mtype : Option String
  node_id : Option Int
  token : Option String
deriving DecidableEq, Repr

/-- The ID_TAKEN match condition of `_check_id_available` (node.py lines
318-323): type, token and node_id must all match the probe. -/
def idTakenMatches (self_node_id : Int) (token : String)
    (m : Option UdpMsg) : Bool :=
  match m with
  | none => false
  | some m =>
    m.mtype = some ("ID_TAKEN") ∧ m.token = some token ∧
      m.node_id = some self_node_id

/-- `Node._check_id_available` (node.py lines 289-338) over the datagrams
`(src_ip, decoded message)` received in the listening window: the first
matching ID_TAKEN aborts startup (returns false = unavailable).  The source
IP is captured for the log line but never compared to anything. -/
def check_id_available (self_node_id : Int) (token : String)
    (received : List (String × Option UdpMsg)) : Bool :=
  match received with
  | [] => true
  | (_, m) :: rest =>
    if idTakenMatches self_node_id token m then false
    else check_id_available self_node_id token rest

/-- Claim C8 as stated: the probe aborts iff a matching ID_TAKEN arrives
whose source IP differs from the node's own address. -/
def ClaimC8 : Prop :=
  ∀ (own_ip : String) (self_node_id : Int) (token : String)
    (received : List (String × Option UdpMsg)),
    check_id_available self_node_id token received = false ↔
      ∃ p ∈ received, idTakenMatches self_node_id token p.2 = true ∧
        p.1 ≠ own_ip

/-- C8 counterexample: an ID_TAKEN with matching node_id and token arriving
from the node's OWN IP still aborts startup — the code never compares the
source address — so the claimed iff is false. -/
theorem claimC8_counterexample : ¬ ClaimC8 := by
  intro h
  have habort : check_id_available 7 ("tok")
      [(("10.0.0.5"), some ⟨some ("ID_TAKEN"), some 7, some ("tok")⟩)] = false := by
    decide
  have hex := (h ("10.0.0.5") 7 ("tok")
    [(("10.0.0.5"), some ⟨some ("ID_TAKEN"), some 7, some ("tok")⟩)]).mp habort
  obtain ⟨p, hp, _, hne⟩ := hex
  rw [List.mem_singleton] at hp
  subst hp
  exact hne rfl

/-- C8 (amended): the probe aborts startup iff some received datagram is an
ID_TAKEN whose token and node_id match the probe — regardless of its source
IP. -/
theorem claimC8_abort_iff_matching_id_taken (self_node_id : Int)
    (token : String) (received : List (String × Option UdpMsg)) :
    check_id_available self_node_id token received = false ↔
      ∃ p ∈ received, idTakenMatches self_node_id token p.2 = true := by
  induction received with
  | nil =>
    simp [check_id_available]
  | cons q rest ih =>
    by_cases hq : idTakenMatches self_node_id token q.2 = true
    · constructor
      · intro _
        exact ⟨q, List.mem_cons_self _ _, hq⟩
      · intro _
        show (if idTakenMatches self_node_id token q.2 then false
          else check_id_available self_node_id token rest) = false
        rw [if_pos hq]
    · constructor
      · intro hfalse
        rw [show check_id_available self_node_id token (q :: rest) =
            check_id_available self_node_id token rest from by
          show (if idTakenMatches self_node_id token q.2 then false
            else check_id_available self_node_id token rest) = _
          rw [if_neg hq]] at hfalse
        obtain ⟨p, hp, hm⟩ := ih.mp hfalse
        exact ⟨p, List.mem_cons_of_mem q hp, hm⟩
      · intro hex
        obtain ⟨p, hp, hm⟩ := hex
        rcases List.mem_cons.mp hp with hp1 | hp2
        · subst hp1
          exact absurd hm hq
        · show (if idTakenMatches self_node_id token q.2 then false
            else check_id_available self_node_id token rest) = false
          rw [if_neg hq]
          exact ih.mpr ⟨p, hp2, hm⟩

end CafeDS
